import Mathlib

/-!
Verification development for the arbiter backend (Python source under
`backend/app`).  Python strings are modelled as `List Char`, Python floats as
exact rationals `ℚ` (each modelled float constant is an exact decimal, and no
claim below depends on binary rounding), Python `None`-able values as
`Option`.  External engines (the LLM chat API, the embedding service, the
C regex engine used for the override-keyword gate, floating-point `sqrt`
inside cosine similarity, the network downloader, the PDF parser and the
SHA-256 routine) are modelled as explicit oracle parameters: no claim in
scope depends on their values, only on how the surrounding code uses their
results.
-/

namespace Arbiter

/-- Python strings are modelled as lists of characters. -/
abbrev Str := List Char

/-- Python `\s` / `str.strip` whitespace (ASCII fragment). -/
def isPySpace (c : Char) : Bool :=
  c = ' ' ∨ c = '\t' ∨ c = '\n' ∨ c = '\r' ∨ c = '\x0b' ∨ c = '\x0c'

/-- Python `str.strip()`: drop leading and trailing whitespace. -/
def stripList (l : Str) : Str :=
  ((l.dropWhile isPySpace).reverse.dropWhile isPySpace).reverse

/-- Helper for `collapseWs`: the flag records whether the previous input
character was whitespace (so a whitespace run emits a single `' '`). -/
def collapseWsAux : Bool → Str → Str
  | _, [] => []
  | prevSpace, c :: cs =>
    if isPySpace c then
      if prevSpace then collapseWsAux true cs
      else ' ' :: collapseWsAux true cs
    else c :: collapseWsAux false cs

/-- Python `re.sub(r'\s+', ' ', text)`: collapse each whitespace run to one
space. -/
def collapseWs (l : Str) : Str := collapseWsAux false l

/-- `citation_verifier.normalize_text`: collapse whitespace, strip,
lowercase. -/
def normalizeText (text : Str) : Str :=
  (stripList (collapseWs text)).map Char.toLower

/-- Helper for `pySplit`; `cur` holds the current word reversed. -/
def pySplitAux : Str → Str → List Str
  | cur, [] => if cur = [] then [] else [cur.reverse]
  | cur, c :: cs =>
    if isPySpace c then
      if cur = [] then pySplitAux [] cs
      else cur.reverse :: pySplitAux [] cs
    else pySplitAux (c :: cur) cs

/-- Python `str.split()` with no argument: split on whitespace runs,
discarding empty words. -/
def pySplit (l : Str) : List Str := pySplitAux [] l

/-- Python `' '.join(words)`. -/
def joinWords (ws : List Str) : Str := List.intercalate [' '] ws

/-! ### levenshtein.py -/

/-- Inner cell recursion of the two-row dynamic program of
`levenshtein_distance`: given the character `c2` of the longer string, the
remaining characters of the shorter string, the previous row and the diagonal
and left neighbours, produce the rest of the current row. -/
def levRowAux (c2 : Char) : Str → Nat → List Nat → Nat → List Nat
  | [], _, _, _ => []
  | _ :: _, _, [], _ => []
  | c1 :: cs, diag, p :: ps, left =>
    let cur := if c1 = c2 then diag else 1 + min p (min left diag)
    cur :: levRowAux c2 cs p ps cur

/-- One row update of the dynamic program (`curr_row[0] = j`, then the inner
loop over the shorter string). -/
def levRow (a : Str) (c2 : Char) (j : Nat) (prev : List Nat) : List Nat :=
  match prev with
  | [] => []
  | p0 :: ps => j :: levRowAux c2 a p0 ps j

/-- `levenshtein.levenshtein_distance`: edit distance via the row-swap
dynamic program (the shorter string indexes the row). -/
def levenshteinDistance (s1 s2 : Str) : Nat :=
  let p := if s1.length > s2.length then (s2, s1) else (s1, s2)
  let a := p.1
  let b := p.2
  if a.length = 0 then b.length
  else if b.length = 0 then a.length
  else
    let init : List Nat := List.range (a.length + 1)
    let final := b.enum.foldl (fun prev jc => levRow a jc.2 (jc.1 + 1) prev) init
    final.getLastD 0

/-- Window sizes tried by `find_best_match_window`: the quote length and
±10 %/±5 % of it.  Python truncates `int(target_len * f)` of the float
product; the float factors 0.9, 1.1, 0.95, 1.05 are modelled by exact
rational truncation. -/
def windowSizes (t : Nat) : List Nat :=
  [t, t * 9 / 10, t * 11 / 10, t * 19 / 20, t * 21 / 20]

/-- Start offsets of Python `range(0, sourceLen - w + 1, step)` (requires
`w ≤ sourceLen`, `step ≥ 1`). -/
def slideStarts (sourceLen w step : Nat) : List Nat :=
  List.range' 0 ((sourceLen - w) / step + 1) step

/-- Candidate update of the sliding-window scan: keep a window iff its
distance strictly improves the best so far (Python's `distance <
best_distance` with `best_distance` initialised to `inf`; the source's early
return on a zero distance is semantically the same, since later windows can
never strictly improve on 0). -/
def bestCandidate (target source : Str) (best : Option (Str × Nat × Nat))
    (w start : Nat) : Option (Str × Nat × Nat) :=
  let window := (source.drop start).take w
  let d := levenshteinDistance target window
  match best with
  | none => some (window, start, d)
  | some (bm, bs, bd) => if d < bd then some (window, start, d) else some (bm, bs, bd)

/-- `levenshtein.find_best_match_window`: best-matching window of `source`
against `target`, returning `(match, start, distance)`.  The `none` fallback
is unreachable because the window size `target.length` is always tried. -/
def findBestMatchWindow (target source : Str) : Str × Nat × Nat :=
  let tl := target.length
  let sl := source.length
  if tl = 0 then ([], 0, 0)
  else if sl = 0 then ([], 0, tl)
  else if tl ≥ sl then (source, 0, levenshteinDistance target source)
  else
    let best := (windowSizes tl).foldl (fun best w =>
      if w = 0 ∨ w > sl then best
      else
        let step := max 1 (w / 20)
        (slideStarts sl w step).foldl (fun b start => bestCandidate target source b w start) best)
      none
    match best with
    | some r => r
    | none => ([], 0, tl)

/-! ### citation_verifier.py -/

/-- Verification method reported by `verify_citation`. -/
inductive Method where
  | exact
  | fuzzy
deriving DecidableEq, Repr

/-- Result dictionary of `verify_citation`. -/
structure VerifyResult where
  verified : Bool
  method : Option Method
  distance : Option Nat
  matched_text : Option Str
  chunk_id : Option Nat
deriving DecidableEq, Repr

/-- Chunk rows as the services see them (SQL columns used by the claims;
`embedding` is `None` or a dense vector, modelled over `ℚ`). -/
structure ChunkRow where
  id : Nat
  source_id : Nat
  page_number : Nat
  chunk_index : Nat
  chunk_text : Str
  embedding : Option (List ℚ)
  precedence_level : Nat
  expansion_id : Option Nat
  overrides_chunk_id : Option Nat
  override_confidence : Option Nat
  override_evidence : Option Str
  expires_at : Option Nat
deriving DecidableEq, Repr

/-- Fuzzy threshold computed by `verify_citation` for the targeted chunk
(source lines 145–150): `min` of the absolute and percentage bounds,
immediately saturated back up by `max` with the absolute bound. -/
def maxAllowedTargeted (maxFuzzy : Nat) (pct : ℚ) (qlen : Nat) : Nat :=
  max (min maxFuzzy (Int.toNat ⌊(qlen : ℚ) * pct⌋)) maxFuzzy

/-- Fuzzy threshold computed by `verify_citation_in_any_chunk`
(source lines 232–235): `max` of the absolute and percentage bounds. -/
def maxAllowedAny (maxFuzzy : Nat) (pct : ℚ) (qlen : Nat) : Nat :=
  max maxFuzzy (Int.toNat ⌊(qlen : ℚ) * pct⌋)

/-- `verify_citation_in_any_chunk`: exact pass over every chunk, then a
fuzzy pass keeping the strictly best distance over all chunks. -/
def verifyCitationInAnyChunk (quote : Str) (chunks : List ChunkRow)
    (maxFuzzy : Nat) (pct : ℚ) : VerifyResult :=
  let base : VerifyResult := ⟨false, none, none, none, none⟩
  let nq := normalizeText quote
  match chunks.find? (fun c => c.chunk_text ≠ [] ∧ nq <:+: normalizeText c.chunk_text) with
  | some c => { base with
      verified := true
      method := some Method.exact
      distance := some 0
      matched_text := some quote
      chunk_id := some c.id }
  | none =>
    let best := chunks.foldl (fun best c =>
      if c.chunk_text = [] then best
      else
        let r := findBestMatchWindow nq (normalizeText c.chunk_text)
        match best with
        | none => some (r.2.2, c.id, r.1)
        | some (bd, bid, bm) =>
          if r.2.2 < bd then some (r.2.2, c.id, r.1) else some (bd, bid, bm)) none
    match best with
    | some (bd, bid, bm) =>
      if bd ≤ maxAllowedAny maxFuzzy pct nq.length then
        { base with
          verified := true
          method := some Method.fuzzy
          distance := some bd
          matched_text := some bm
          chunk_id := some bid }
      else base
    | none => base

/-- `verify_citation`: two-pass verification of a quote against the chunk
with id `chunkId` (exact substring after normalization, then fuzzy window
match), falling back to `verify_citation_in_any_chunk` when the targeted
chunk is absent.  `maxFuzzy`/`pct` default to 8 and 0.02 in the source. -/
def verifyCitation (quote : Str) (chunkId : Nat) (chunks : List ChunkRow)
    (maxFuzzy : Nat) (pct : ℚ) : VerifyResult :=
  let base : VerifyResult := ⟨false, none, none, none, some chunkId⟩
  if stripList quote = [] then base
  else
    match chunks.find? (fun c => c.id = chunkId) with
    | none => verifyCitationInAnyChunk quote chunks maxFuzzy pct
    | some target =>
      if target.chunk_text = [] then base
      else
        let nq := normalizeText quote
        let nc := normalizeText target.chunk_text
        if nq <:+: nc then
          { base with
            verified := true
            method := some Method.exact
            distance := some 0
            matched_text := some quote }
        else
          let r := findBestMatchWindow nq nc
          if r.2.2 ≤ maxAllowedTargeted maxFuzzy pct nq.length then
            { base with
              verified := true
              method := some Method.fuzzy
              distance := some r.2.2
              matched_text := some ((target.chunk_text.drop r.2.1).take r.1.length) }
          else base

/-! ### chunker.py -/

/-- `chunker.estimate_tokens`: 1 token ≈ 4 characters. -/
def estimateTokens (text : Str) : Nat := text.length / 4

/-- Case-insensitive character match (ASCII `re.IGNORECASE`). -/
def charEqCI (a b : Char) : Bool := a.toLower = b.toLower

/-- Does `l` start with `pat`, comparing case-insensitively? -/
def startsWithCI : Str → Str → Bool
  | [], _ => true
  | _ :: _, [] => false
  | p :: ps, c :: cs => charEqCI p c ∧ startsWithCI ps cs

/-- Does `l` start with `pat`, comparing exactly? -/
def startsWithEq : Str → Str → Bool
  | [], _ => true
  | _ :: _, [] => false
  | p :: ps, c :: cs => p = c ∧ startsWithEq ps cs

/-- Left-to-right non-overlapping case-insensitive replacement of the literal
pattern `pat` by `rep` (Python `re.sub` with `re.IGNORECASE` on a literal
pattern).  The fuel argument is bounded by the input length, which suffices
for every non-empty pattern. -/
def replaceCIFuel : Nat → Str → Str → Str → Str
  | 0, _, _, l => l
  | _ + 1, _, _, [] => []
  | f + 1, pat, rep, c :: cs =>
    if startsWithCI pat (c :: cs) then
      rep ++ replaceCIFuel f pat rep ((c :: cs).drop pat.length)
    else c :: replaceCIFuel f pat rep cs

/-- Case-insensitive `re.sub` on a literal pattern. -/
def replaceCI (pat rep l : Str) : Str := replaceCIFuel l.length pat rep l

/-- Left-to-right non-overlapping exact replacement (Python `str.replace`). -/
def replaceEqFuel : Nat → Str → Str → Str → Str
  | 0, _, _, l => l
  | _ + 1, _, _, [] => []
  | f + 1, pat, rep, c :: cs =>
    if startsWithEq pat (c :: cs) then
      rep ++ replaceEqFuel f pat rep ((c :: cs).drop pat.length)
    else c :: replaceEqFuel f pat rep cs

/-- Python `str.replace` on a literal pattern. -/
def replaceEq (pat rep l : Str) : Str := replaceEqFuel l.length pat rep l

/-- Marker inserted for protected abbreviation dots. -/
def dotMarker : Str := "<<DOT>>".toList

/-- Marker inserted for protected decimal points. -/
def decimalMarker : Str := "<<DECIMAL>>".toList

/-- Replacement for the decimal-number pattern `(\d)\.(\d)` by
`\1<<DECIMAL>>\2`: scan left to right, a match consumes its three characters
(non-overlapping, like `re.sub`). -/
def replaceDecimalFuel : Nat → Str → Str
  | 0, l => l
  | _ + 1, [] => []
  | f + 1, a :: rest =>
    match rest with
    | '.' :: b :: rest2 =>
      if a.isDigit ∧ b.isDigit then
        a :: decimalMarker ++ b :: replaceDecimalFuel f rest2
      else a :: replaceDecimalFuel f rest
    | _ => a :: replaceDecimalFuel f rest

/-- `re.sub(r'(\d)\.(\d)', r'\1<<DECIMAL>>\2', ·)`. -/
def replaceDecimal (l : Str) : Str := replaceDecimalFuel l.length l

/-- The abbreviation table of `split_into_sentences` (pattern, replacement);
the decimal-number rule is applied afterwards by `replaceDecimal`. -/
def abbrevTable : List (Str × Str) :=
  [("mr.".toList, "Mr<<DOT>>".toList),
   ("mrs.".toList, "Mrs<<DOT>>".toList),
   ("ms.".toList, "Ms<<DOT>>".toList),
   ("dr.".toList, "Dr<<DOT>>".toList),
   ("prof.".toList, "Prof<<DOT>>".toList),
   ("jr.".toList, "Jr<<DOT>>".toList),
   ("sr.".toList, "Sr<<DOT>>".toList),
   ("inc.".toList, "Inc<<DOT>>".toList),
   ("ltd.".toList, "Ltd<<DOT>>".toList),
   ("corp.".toList, "Corp<<DOT>>".toList),
   ("vs.".toList, "vs<<DOT>>".toList),
   ("e.g.".toList, "e<<DOT>>g<<DOT>>".toList),
   ("i.e.".toList, "i<<DOT>>e<<DOT>>".toList),
   ("etc.".toList, "etc<<DOT>>".toList)]

/-- Sequentially protect every abbreviation and decimal number. -/
def protectAbbrevs (l : Str) : Str :=
  replaceDecimal (abbrevTable.foldl (fun acc pr => replaceCI pr.1 pr.2 acc) l)

/-- Is this a sentence-ending punctuation character (`[.!?]`)? -/
def isSentEnd (c : Char) : Bool := c = '.' ∨ c = '!' ∨ c = '?'

/-- Is this an ASCII capital (`[A-Z]`)? -/
def isCapital (c : Char) : Bool := 'A' ≤ c ∧ c ≤ 'Z'

/-- Does the head character of the list satisfy `p` (false when empty)? -/
def headIs (p : Char → Bool) : Str → Bool
  | [] => false
  | c :: _ => p c

/-- Sentence-boundary split `re.split(r'(?<=[.!?])\s+(?=[A-Z])', ·)`: after
whitespace normalization every whitespace run is a single space, so the
separator is a space preceded by `[.!?]` and followed by `[A-Z]`.  `cur`
holds the current piece reversed. -/
def splitSentAux : Str → Str → List Str
  | cur, [] => [cur.reverse]
  | cur, c :: cs =>
    if c = ' ' ∧ headIs isSentEnd cur ∧ headIs isCapital cs then
      cur.reverse :: splitSentAux [] cs
    else splitSentAux (c :: cur) cs

/-- `chunker.split_into_sentences`: normalize whitespace, protect
abbreviations and decimals, split on sentence boundaries, restore the
protected dots, strip, and drop empty pieces. -/
def splitIntoSentences (text : Str) : List Str :=
  let t := stripList (collapseWs text)
  if t = [] then []
  else
    ((splitSentAux [] (protectAbbrevs t)).map (fun s =>
        stripList (replaceEq decimalMarker ['.'] (replaceEq dotMarker ['.'] s)))).filter
      (fun s => s ≠ [])

/-- `chunker.Chunk` dataclass. -/
structure Chunk where
  page_number : Nat
  chunk_index : Nat
  chunk_text : Str
  char_count : Nat
  estimated_tokens : Nat
deriving DecidableEq, Repr

/-- Build a `Chunk` from a page number, index and text, as every
`chunks.append(...)` site of `chunk_text` does. -/
def mkChunk (page idx : Nat) (text : Str) : Chunk :=
  ⟨page, idx, text, text.length, estimateTokens text⟩

/-- Chunks for a run of word lists, with consecutive indices from `idx`. -/
def assignIdx (page : Nat) : Nat → List (List Str) → List Chunk
  | _, [] => []
  | idx, ws :: rest => mkChunk page idx (joinWords ws) :: assignIdx page (idx + 1) rest

/-- Word-level token count used by the word-splitting loop:
`estimate_tokens(word + ' ')`. -/
def wordTokenCount (w : Str) : Nat := estimateTokens (w ++ [' '])

/-- The word-splitting loop of `chunk_text` (source lines 144–163) for a
sentence longer than `max_tokens`: returns the flushed word chunks in order
together with the final `word_chunk` and `word_tokens`.  On a flush the loop
keeps the last `max(1, len(word_chunk) // 2)` words as overlap and recomputes
their token sum. -/
def wordLoop (mt : Nat) : List Str → List Str → Nat → List (List Str) × List Str × Nat
  | [], wc, wt => ([], wc, wt)
  | w :: ws, wc, wt =>
    if wt + wordTokenCount w > mt ∧ wc ≠ [] then
      (wc :: (wordLoop mt ws (wc.drop (wc.length - max 1 (wc.length / 2)) ++ [w])
          (((wc.drop (wc.length - max 1 (wc.length / 2))).map wordTokenCount).sum +
            wordTokenCount w)).1,
        (wordLoop mt ws (wc.drop (wc.length - max 1 (wc.length / 2)) ++ [w])
          (((wc.drop (wc.length - max 1 (wc.length / 2))).map wordTokenCount).sum +
            wordTokenCount w)).2)
    else wordLoop mt ws (wc ++ [w]) (wt + wordTokenCount w)

/-- Sentence-overlap selection of `chunk_text` (source lines 185–194): walk
the flushed sentences in reverse, keeping those that still fit in
`overlap_tokens`, stopping at the first that does not; the input here is the
reversed sentence list. -/
def takeOverlap (overlapTokens : Nat) : Nat → List Str → List Str → List Str × Nat
  | ovTok, acc, [] => (acc, ovTok)
  | ovTok, acc, s :: rest =>
    let st := estimateTokens s
    if ovTok + st ≤ overlapTokens then takeOverlap overlapTokens (ovTok + st) (s :: acc) rest
    else (acc, ovTok)

/-- Main sentence-accumulation loop of `chunk_text` (source lines 120–212),
including the trailing flush of `current_sentences`. -/
def chunkTextLoop (mt ovTok page : Nat) :
    List Str → List Str → Nat → Nat → List Chunk
  | [], cur, _, idx => if cur ≠ [] then [mkChunk page idx (joinWords cur)] else []
  | s :: rest, cur, curTok, idx =>
    let st := estimateTokens s
    if st > mt then
      let flushed := if cur ≠ [] then [mkChunk page idx (joinWords cur)] else []
      let idx1 := if cur ≠ [] then idx + 1 else idx
      let tokAfter := if cur ≠ [] then 0 else curTok
      let r := wordLoop mt (pySplit s) [] 0
      let wordChunks := assignIdx page idx1 r.1
      let idx2 := idx1 + r.1.length
      let cur2 := if r.2.1 ≠ [] then [joinWords r.2.1] else []
      let tok2 := if r.2.1 ≠ [] then r.2.2 else tokAfter
      flushed ++ wordChunks ++ chunkTextLoop mt ovTok page rest cur2 tok2 idx2
    else if curTok + st > mt ∧ cur ≠ [] then
      let ov := takeOverlap ovTok 0 [] cur.reverse
      mkChunk page idx (joinWords cur) ::
        chunkTextLoop mt ovTok page rest (ov.1 ++ [s]) (ov.2 + st) (idx + 1)
    else chunkTextLoop mt ovTok page rest (cur ++ [s]) (curTok + st) idx

/-- `chunker.chunk_text`: sentence-aware accumulation with overlap;
whitespace-only input returns no chunks, and an input with no detected
sentence falls back to the stripped text as a single sentence.
`overlap_tokens = int(max_tokens * overlap)`. -/
def chunkText (text : Str) (page mt : Nat) (ov : ℚ) (startIdx : Nat) : List Chunk :=
  if stripList text = [] then []
  else
    chunkTextLoop mt (Int.toNat ⌊(mt : ℚ) * ov⌋) page
      (if splitIntoSentences text = [] then [stripList text] else splitIntoSentences text)
      [] 0 startIdx

/-- Page folding of `chunk_document`: the next page continues numbering from
the last produced chunk index plus one. -/
def chunkDocumentGo (mt : Nat) (ov : ℚ) : Nat → List (Nat × Str) → List Chunk
  | _, [] => []
  | idx, (pn, txt) :: rest =>
    let pcs := chunkText txt pn mt ov idx
    let idx2 := match pcs.getLast? with
      | some c => c.chunk_index + 1
      | none => idx
    pcs ++ chunkDocumentGo mt ov idx2 rest

/-- `chunker.chunk_document`: chunk every page with document-wide chunk
indices. -/
def chunkDocument (pages : List (Nat × Str)) (mt : Nat) (ov : ℚ) : List Chunk :=
  chunkDocumentGo mt ov 0 pages

/-! ### confidence.py -/

/-- Context dictionary consumed by `calculate_confidence`; every caller
supplies these four keys, so the `.get` defaults are modelled by a total
record.  Scores are exact rationals. -/
structure ConfidenceCtx where
  verify_ok : Bool
  s_top : ℚ
  s_gap : ℚ
  conflict : Bool
deriving DecidableEq, Repr

/-- `confidence.get_low_reason`: reason priority is unverified, then
conflict, then weak match, then ambiguous. -/
def getLowReason (verifyOk : Bool) (sTop : ℚ) (conflict : Bool) : String :=
  if ¬verifyOk then "Could not verify exact quote"
  else if conflict then "Multiple sources conflict"
  else if sTop < 7/10 then "Weak semantic match"
  else "Ambiguous ruling"

/-- `confidence.calculate_confidence`: returns the level and the reason
string (the `{'reason': ...}` dictionary is modelled by its value). -/
def calculateConfidence (ctx : ConfidenceCtx) : String × String :=
  if ctx.verify_ok ∧ ctx.s_top ≥ 85/100 ∧ ctx.s_gap ≥ 8/100 ∧ ¬ctx.conflict then
    ("high", "Strong match, verified quote, no conflicts")
  else if ctx.verify_ok ∧ ctx.s_top ≥ 7/10 ∧ ¬ctx.conflict then
    ("medium", "Good match, verified quote")
  else ("low", getLowReason ctx.verify_ok ctx.s_top ctx.conflict)

/-! ### retrieval.py — scoring and ranking -/

/-- `retrieval.normalize_scores`: min-max normalization; when all scores are
equal, everything maps to 1. -/
def normalizeScores (scores : List ℚ) : List ℚ :=
  match scores with
  | [] => []
  | s :: ss =>
    let mn := ss.foldl min s
    let mx := ss.foldl max s
    if mx = mn then List.replicate (s :: ss).length 1
    else (s :: ss).map (fun x => (x - mn) / (mx - mn))

/-- Value record of the `all_chunks` dictionary in `hybrid_search`. -/
structure MergedEntry where
  chunk : ChunkRow
  bm25_score : ℚ
  vec_score : ℚ
deriving Repr

/-- Python `dict` assignment on an insertion-ordered association list:
updating an existing key keeps its position, a new key is appended. -/
def dictSet (m : List (Nat × α)) (k : Nat) (v : α) : List (Nat × α) :=
  if m.any (fun p => p.1 = k) then
    m.map (fun p => if p.1 = k then (k, v) else p)
  else m ++ [(k, v)]

/-- Step 2 of `hybrid_search`: merge keyword results (inserted first) and
vector results (vector scores merged into existing entries, unseen chunks
appended) into the insertion-ordered `all_chunks` map. -/
def mergeChunks (kw vec : List (ChunkRow × ℚ)) : List (Nat × MergedEntry) :=
  let m1 := kw.foldl (fun m p => dictSet m p.1.id ⟨p.1, p.2, 0⟩) []
  vec.foldl (fun m p =>
    match m.find? (fun q => q.1 = p.1.id) with
    | some q => dictSet m p.1.id ⟨q.2.chunk, q.2.bm25_score, p.2⟩
    | none => m ++ [(p.1.id, ⟨p.1, 0, p.2⟩)]) m1

/-- `retrieval.ScoredChunk`. -/
structure ScoredChunk where
  chunk : ChunkRow
  bm25_score : ℚ
  vec_score : ℚ
  final_score : ℚ
deriving DecidableEq, Repr

/-- The `expansion_priority` dictionary `{exp_id: idx}` of `hybrid_search`,
looked up with default 99. -/
def expansionPriority (expansionIds : List Nat) (e : Nat) : Nat :=
  ((expansionIds.enum.foldl (fun m p => dictSet m p.2 p.1) []).find?
    (fun q => q.1 = e)).elim 99 (fun q => q.2)

/-- `retrieval.calculate_precedence_boost`: +0.15 for errata/faq, a
priority-graded boost (floor 0.05) for enabled expansions, −0.05 for
disabled expansions, 0 for base rules.  Python's `if expansion_id and ...`
treats the id 0 as falsy. -/
def calculatePrecedenceBoost (c : ChunkRow) (expansionIds : List Nat) : ℚ :=
  if c.precedence_level = 3 then 15/100
  else if c.precedence_level = 2 then
    match c.expansion_id with
    | some e =>
      if e ≠ 0 ∧ e ∈ expansionIds then
        max (1/10 - (expansionPriority expansionIds e : ℚ) * (1/100)) (1/20)
      else -(1/20)
    | none => -(1/20)
  else 0

/-- Steps 3–4 of `hybrid_search`: normalize both score columns over the
merged map and combine them as `0.4·bm25 + 0.6·vec` plus the precedence
boost, in insertion order. -/
def scoredList (kw vec : List (ChunkRow × ℚ)) (expansionIds : List Nat) :
    List ScoredChunk :=
  let merged := mergeChunks kw vec
  let bm := normalizeScores (merged.map (fun p => p.2.bm25_score))
  let vc := normalizeScores (merged.map (fun p => p.2.vec_score))
  (merged.zip (bm.zip vc)).map (fun p =>
    let base := (2/5) * p.2.1 + (3/5) * p.2.2
    ⟨p.1.2.chunk, p.1.2.bm25_score, p.1.2.vec_score,
      base + calculatePrecedenceBoost p.1.2.chunk expansionIds⟩)

/-- Stable descending insertion by key: the new element goes in front of the
first element whose key is not larger, so that elements with equal keys keep
their original order (the behaviour of Python's stable
`list.sort(key=..., reverse=True)`). -/
def insertByDesc (key : α → ℚ) (x : α) : List α → List α
  | [] => [x]
  | y :: ys => if key x < key y then y :: insertByDesc key x ys else x :: y :: ys

/-- Stable descending sort by key, modelling Python's stable sort with
`reverse=True`. -/
def sortByDesc (key : α → ℚ) : List α → List α
  | [] => []
  | x :: xs => insertByDesc key x (sortByDesc key xs)

/-- The ranked candidate list of `hybrid_search` (source lines 142–208):
merge, normalize, score, then sort by final score descending with Python's
stable sort. -/
def hybridRank (kw vec : List (ChunkRow × ℚ)) (expansionIds : List Nat) :
    List ScoredChunk :=
  sortByDesc (fun sc => sc.final_score) (scoredList kw vec expansionIds)

/-! ### override_detector.py

The LLM classifier (`classify_override`), the embedding service
(`create_embedding`), the cosine similarity (whose float `sqrt` is not
rational) and the override-keyword regex engine are modelled as oracle
parameters `classify`, `embFn`, `sim` and `kwGate`; no claim depends on
their values. -/

/-- Override relationship dictionary produced by `detect_overrides`. -/
structure OverrideRec where
  expansion_chunk_id : Nat
  overrides_chunk_id : Nat
  confidence : Nat
  evidence : Str
  similarity : ℚ
deriving Repr

/-- Expansion-chunk embedding: reuse the stored one unless it is `None` or
empty (Python truthiness of `if not exp_embedding`). -/
def chunkEmbeddingOrCreate (embFn : Str → List ℚ) (c : ChunkRow) : List ℚ :=
  match c.embedding with
  | some e => if e = [] then embFn c.chunk_text else e
  | none => embFn c.chunk_text

/-- Keep only base chunks with a non-null, non-empty embedding
(`if not base.embedding: continue`). -/
def hasEmbedding (c : ChunkRow) : Bool :=
  match c.embedding with
  | some e => e ≠ []
  | none => false

/-- `override_detector.find_similar_base_chunks`: similarity of the
expansion chunk against every embedded base chunk, sorted descending
(stable) and truncated to `limit`. -/
def findSimilarBaseChunks (embFn : Str → List ℚ) (sim : List ℚ → List ℚ → ℚ)
    (exp : ChunkRow) (bases : List ChunkRow) (limit : Nat) : List (ChunkRow × ℚ) :=
  if bases = [] then []
  else
    let ee := chunkEmbeddingOrCreate embFn exp
    let sims := (bases.filter hasEmbedding).map
      (fun b => (b, sim ee (b.embedding.getD [])))
    (sortByDesc (fun p => p.2) sims).take limit

/-- Clamping performed on the raw classifier output: confidence into
`[0, 100]`, evidence to 200 characters. -/
def classifyClamp (r : Bool × Int × Str) : Bool × Nat × Str :=
  (r.1, Int.toNat (min 100 (max 0 r.2.1)), r.2.2.take 200)

/-- `override_detector.detect_overrides`: keyword gate, embedding-neighbour
candidates above similarity 0.82, one classifier call on the best candidate,
and an override record when `is_override ∧ confidence ≥ min_confidence`. -/
def detectOverrides (kwGate : Str → Bool) (embFn : Str → List ℚ)
    (sim : List ℚ → List ℚ → ℚ) (classify : ChunkRow → ChunkRow → Bool × Int × Str)
    (exps bases : List ChunkRow) (minConf : Nat) : List OverrideRec :=
  if exps = [] ∨ bases = [] then []
  else
    (exps.map (fun exp =>
      if ¬ kwGate exp.chunk_text then []
      else
        let similar := findSimilarBaseChunks embFn sim exp bases 3
        let candidates := similar.filter (fun p => p.2 ≥ 82/100)
        match candidates with
        | [] => []
        | (best, bestSim) :: _ =>
          let r := classifyClamp (classify exp best)
          if r.1 ∧ r.2.1 ≥ minConf then
            [⟨exp.id, best.id, r.2.1, r.2.2, bestSim⟩]
          else [])).flatten

/-- `override_detector.save_override_relationships`: one UPDATE per record on
the chunk with the expansion chunk's id. -/
def saveOverrides (chunks : List ChunkRow) (ovs : List OverrideRec) : List ChunkRow :=
  ovs.foldl (fun cs o => cs.map (fun c =>
    if c.id = o.expansion_chunk_id then
      { c with
        overrides_chunk_id := some o.overrides_chunk_id
        override_confidence := some o.confidence
        override_evidence := some o.evidence }
    else c)) chunks

/-! ### Store model (game_sources / rule_chunks rows touched by ingestion) -/

/-- Source rows (`game_sources` columns used by the claims). -/
structure SourceRow where
  id : Nat
  game_id : Nat
  source_type : Str
  source_url : Option Str
  file_hash : Option Str
  needs_ocr : Bool
  needs_reingest : Bool
  last_ingested_at : Option Nat
deriving DecidableEq, Repr

/-- Committed database state: source rows, chunk rows, and the serial id
counter for chunk inserts.  Each repository call below commits its effect to
this state immediately, exactly as the sync repository methods call
`conn.commit()` per statement. -/
structure Db where
  sources : List SourceRow
  chunks : List ChunkRow
  nextChunkId : Nat
deriving DecidableEq, Repr

/-- Precedence map of `ingest_source` (source lines 279–286), with default 1
for unknown source types. -/
def precedenceOf (t : Str) : Nat :=
  if t = "rulebook".toList then 1
  else if t = "expansion".toList then 2
  else if t = "faq".toList then 3
  else if t = "errata".toList then 3
  else if t = "reference_card".toList then 1
  else 1

/-- `RuleChunkCreate` as built by `ingest_source` (always-null columns such
as `section_title` and `phase_tags` are omitted). -/
structure NewChunk where
  source_id : Nat
  page_number : Nat
  chunk_index : Nat
  chunk_text : Str
  embedding : Option (List ℚ)
  precedence_level : Nat
  expires_at : Option Nat
deriving DecidableEq, Repr

/-- Row produced by `create_chunk_sync` for a fresh serial id. -/
def mkRow (id : Nat) (nc : NewChunk) : ChunkRow :=
  ⟨id, nc.source_id, nc.page_number, nc.chunk_index, nc.chunk_text, nc.embedding,
    nc.precedence_level, none, none, none, none, nc.expires_at⟩

/-- `chunks.delete_chunks_by_source_sync`: delete and commit, returning the
deleted count. -/
def deleteChunksBySource (db : Db) (sid : Nat) : Db × Nat :=
  ({ db with chunks := db.chunks.filter (fun c => c.source_id ≠ sid) },
    (db.chunks.filter (fun c => c.source_id = sid)).length)

/-- `chunks.create_chunk_sync`: insert one row and commit. -/
def createChunk (db : Db) (nc : NewChunk) : Db :=
  { db with
    chunks := db.chunks ++ [mkRow db.nextChunkId nc]
    nextChunkId := db.nextChunkId + 1 }

/-- Failure-injection point for the persistence steps of `ingest_source`:
an exception raised by the delete, by the i-th insert, or by the source-row
update (each before that statement's commit). -/
inductive FailPoint where
  | noFail
  | atDelete
  | atInsert (i : Nat)
  | atUpdate
deriving DecidableEq, Repr

/-- Insert loop of `ingest_source` (source lines 304–317): each
`create_chunk_sync` commits individually; an injected failure at insert `i`
keeps everything committed so far.  Returns the state, the success flag and
the number of completed inserts. -/
def insertLoop : Db → List NewChunk → Nat → FailPoint → Db × Bool × Nat
  | db, [], _, _ => (db, true, 0)
  | db, r :: rs, i, fp =>
    if fp = FailPoint.atInsert i then (db, false, 0)
    else
      ((insertLoop (createChunk db r) rs (i + 1) fp).1,
        (insertLoop (createChunk db r) rs (i + 1) fp).2.1,
        (insertLoop (createChunk db r) rs (i + 1) fp).2.2 + 1)

/-- Chunk persistence of `ingest_source`: committed delete followed by
individually committed inserts.  Returns (state, ok, created, deleted). -/
def persistChunks (db : Db) (sid : Nat) (rows : List NewChunk) (failAt : FailPoint) :
    Db × Bool × Nat × Nat :=
  if failAt = FailPoint.atDelete then (db, false, 0, 0)
  else
    ((insertLoop (deleteChunksBySource db sid).1 rows 0 failAt).1,
      (insertLoop (deleteChunksBySource db sid).1 rows 0 failAt).2.1,
      (insertLoop (deleteChunksBySource db sid).1 rows 0 failAt).2.2,
      (deleteChunksBySource db sid).2)

/-- SQL `UPDATE game_sources SET ... WHERE id = sid`. -/
def updateSources (db : Db) (sid : Nat) (f : SourceRow → SourceRow) : Db :=
  { db with sources := db.sources.map (fun s => if s.id = sid then f s else s) }

/-- Base-source query of the override trigger in `ingest_source`
(source lines 343–351): rulebook / reference_card sources of the same game,
excluding the ingested source itself. -/
def overrideBaseIds (db : Db) (src : SourceRow) (sid : Nat) : List Nat :=
  (db.sources.filter (fun s2 => s2.game_id = src.game_id ∧
    (s2.source_type = "rulebook".toList ∨ s2.source_type = "reference_card".toList) ∧
    s2.id ≠ sid)).map (fun s2 => s2.id)

/-- Expansion chunks read back by `detect_and_save_overrides`
(`source_id = expSid AND embedding IS NOT NULL`). -/
def expansionChunksOf (db : Db) (expSid : Nat) : List ChunkRow :=
  db.chunks.filter (fun c => c.source_id = expSid ∧ c.embedding ≠ none)

/-- Base chunks read back by `detect_and_save_overrides`
(`source_id = ANY(baseIds) AND embedding IS NOT NULL`). -/
def baseChunksOf (db : Db) (baseIds : List Nat) : List ChunkRow :=
  db.chunks.filter (fun c => c.source_id ∈ baseIds ∧ c.embedding ≠ none)

/-- `override_detector.detect_and_save_overrides`: read the expansion and
base chunks, detect, and save the resulting edges. -/
def detectAndSaveOverrides (kwGate : Str → Bool) (embFn : Str → List ℚ)
    (sim : List ℚ → List ℚ → ℚ) (classify : ChunkRow → ChunkRow → Bool × Int × Str)
    (db : Db) (expSid : Nat) (baseIds : List Nat) : Db :=
  let exps := expansionChunksOf db expSid
  if exps = [] then db
  else
    let bases := if baseIds = [] then [] else baseChunksOf db baseIds
    if bases = [] then db
    else
      let ovs := detectOverrides kwGate embFn sim classify exps bases 70
      { db with chunks := saveOverrides db.chunks ovs }

/-- The override edges that the post-ingest trigger writes for the
expansion source `sid` of record `src` (empty when either chunk set is). -/
def overrideEdges (kwGate : Str → Bool) (embFn : Str → List ℚ)
    (sim : List ℚ → List ℚ → ℚ) (classify : ChunkRow → ChunkRow → Bool × Int × Str)
    (db : Db) (src : SourceRow) (sid : Nat) : List OverrideRec :=
  if overrideBaseIds db src sid = [] ∨ expansionChunksOf db sid = [] ∨
      baseChunksOf db (overrideBaseIds db src sid) = [] then []
  else
    detectOverrides kwGate embFn sim classify (expansionChunksOf db sid)
      (baseChunksOf db (overrideBaseIds db src sid)) 70

/-- Override trigger of `ingest_source` (source lines 337–358): run the
detector against the game's base sources when any exist. -/
def overrideTrigger (kwGate : Str → Bool) (embFn : Str → List ℚ)
    (sim : List ℚ → List ℚ → ℚ) (classify : ChunkRow → ChunkRow → Bool × Int × Str)
    (db : Db) (src : SourceRow) (sid : Nat) : Db :=
  let baseIds := overrideBaseIds db src sid
  if baseIds = [] then db
  else detectAndSaveOverrides kwGate embFn sim classify db sid baseIds

/-! ### ingestion.py -/

/-- External collaborators of the ingestion pipeline, as oracles: SHA-256,
the HTTP downloader, the PDF page extractor (returning the raw text of every
page of the document, so `total_page_count` is its length), the batch
embedder (`none` = `EmbeddingUnavailable`), and the override-detector
oracles. -/
structure Oracles where
  hashFn : List Nat → Str
  download : Str → Except Unit (List Nat)
  parsePdf : List Nat → Except Unit (List Str)
  embedBatch : List Str → Option (List (List ℚ))
  kwGate : Str → Bool
  embFn : Str → List ℚ
  sim : List ℚ → List ℚ → ℚ
  classify : ChunkRow → ChunkRow → Bool × Int × Str

/-- Result statuses of `ingest_source`. -/
inductive IngestStatus where
  | success
  | needsOcr
  | error
  | noUrl
  | alreadyIngested
  | unchanged
deriving DecidableEq, Repr

/-- Outcome of an `ingest_source` run: committed state, status, and the
created/deleted chunk counts of the result dictionary. -/
structure IngestOutcome where
  db : Db
  status : IngestStatus
  chunksCreated : Nat
  chunksDeleted : Nat
deriving Repr

/-- `ingestion.extract_text_from_pdf`: 1-indexed pages, stripped, blank
pages dropped. -/
def extractTextFromPdf (rawPages : List Str) : List (Nat × Str) :=
  (rawPages.enum.map (fun p => (p.1 + 1, stripList p.2))).filter (fun p => p.2 ≠ [])

/-- Total extracted characters over the kept pages. -/
def totalChars (pages : List (Nat × Str)) : Nat :=
  (pages.map (fun p => p.2.length)).sum

/-- `ingestion.detect_needs_ocr`: under 3 pages, OCR iff fewer than 100
total characters; otherwise OCR iff the average characters per page is
below 50. -/
def detectNeedsOcr (pages : List (Nat × Str)) (totalPageCount : Nat) : Bool :=
  if totalPageCount < 3 then totalChars pages < 100
  else
    let avg : ℚ := if totalPageCount > 0 then (totalChars pages : ℚ) / (totalPageCount : ℚ) else 0
    avg < 50

/-- Embedding assigned to chunk `i`: `embeddings[i] if i < len(embeddings)
else None`, with a failed batch meaning all `None`. -/
def chunkEmbedding (o : Option (List (List ℚ))) (i : Nat) : Option (List ℚ) :=
  match o with
  | some es => es[i]?
  | none => none

/-- The `RuleChunkCreate` list built by `ingest_source` (30-day expiry;
time is modelled in days). -/
def buildNewChunks (sid prec expires : Nat) (chunks : List Chunk)
    (embs : Option (List (List ℚ))) : List NewChunk :=
  chunks.enum.map (fun p =>
    ⟨sid, p.2.page_number, p.2.chunk_index, p.2.chunk_text,
      chunkEmbedding embs p.1, prec, some expires⟩)

/-- `ingestion.ingest_source` with `save_chunks = True` (the value used by
every caller): gates for a missing source, an already-ingested source, a
missing URL, a failed download, an unchanged hash and a failed parse; then
the OCR gate, chunking, per-statement-committed persistence, the source-row
update and the override trigger.  When chunking yields no chunks the save
block is skipped, the source row is still updated, and the reference to the
unbound `precedence` raises a NameError caught by the outer handler, so the
status is `error`. -/
def ingestSource (o : Oracles) (now : Nat) (db : Db) (sid : Nat) (force : Bool)
    (failAt : FailPoint) : IngestOutcome :=
  match db.sources.find? (fun s => s.id = sid) with
  | none => ⟨db, IngestStatus.error, 0, 0⟩
  | some src =>
    if ¬force ∧ src.last_ingested_at.isSome ∧ ¬src.needs_reingest then
      ⟨db, IngestStatus.alreadyIngested, 0, 0⟩
    else
      match src.source_url with
      | none => ⟨db, IngestStatus.noUrl, 0, 0⟩
      | some url =>
        match o.download url with
        | Except.error _ => ⟨db, IngestStatus.error, 0, 0⟩
        | Except.ok bytes =>
          let fileHash := o.hashFn bytes
          if ¬force ∧ src.file_hash = some fileHash then
            ⟨db, IngestStatus.unchanged, 0, 0⟩
          else
            match o.parsePdf bytes with
            | Except.error _ => ⟨db, IngestStatus.error, 0, 0⟩
            | Except.ok rawPages =>
              let pages := extractTextFromPdf rawPages
              if detectNeedsOcr pages rawPages.length then
                ⟨updateSources db sid (fun s =>
                    { s with needs_ocr := true, file_hash := some fileHash }),
                  IngestStatus.needsOcr, 0, 0⟩
              else
                let chunks := chunkDocument pages 400 (1/2)
                if chunks ≠ [] then
                  let prec := precedenceOf src.source_type
                  let rows := buildNewChunks sid prec (now + 30) chunks
                    (o.embedBatch (chunks.map (fun c => c.chunk_text)))
                  let pr := persistChunks db sid rows failAt
                  if ¬pr.2.1 then ⟨pr.1, IngestStatus.error, pr.2.2.1, pr.2.2.2⟩
                  else if failAt = FailPoint.atUpdate then
                    ⟨pr.1, IngestStatus.error, pr.2.2.1, pr.2.2.2⟩
                  else
                    let db2 := updateSources pr.1 sid (fun s =>
                      { s with
                        file_hash := some fileHash
                        needs_ocr := false
                        needs_reingest := false
                        last_ingested_at := some now })
                    let db3 := if prec = 2 then
                        overrideTrigger o.kwGate o.embFn o.sim o.classify db2 src sid
                      else db2
                    ⟨db3, IngestStatus.success, pr.2.2.1, pr.2.2.2⟩
                else
                  if failAt = FailPoint.atUpdate then ⟨db, IngestStatus.error, 0, 0⟩
                  else
                    ⟨updateSources db sid (fun s =>
                        { s with
                          file_hash := some fileHash
                          needs_ocr := false
                          needs_reingest := false
                          last_ingested_at := some now }),
                      IngestStatus.error, 0, 0⟩

/-! ## Theorems -/

/-- A fully whitespace string strips to the empty string. -/
theorem stripList_eq_nil_of_all_space {l : Str} (h : ∀ c ∈ l, isPySpace c) :
    stripList l = [] := by
  unfold stripList
  rw [List.dropWhile_eq_nil_iff.mpr h]
  simp

/-- C1 (code bug in the source): the fuzzy threshold of the targeted-chunk
check in `verify_citation` is `max(min(8, ⌊0.02·L⌋), 8)`, which is the
constant 8 for every quote length, whereas the claimed (and intended, per
the sibling `verify_citation_in_any_chunk` and the spec) threshold
`max(8, ⌊0.02·L⌋)` equals 9 already at normalized quote length 450. -/
theorem c1_targeted_threshold_saturated :
    (∀ L, maxAllowedTargeted 8 (1/50) L = 8) ∧
    maxAllowedAny 8 (1/50) 450 = 9 ∧ maxAllowedTargeted 8 (1/50) 450 = 8 := by
  have hconst : ∀ L, maxAllowedTargeted 8 (1/50) L = 8 := fun L =>
    Nat.max_eq_right (Nat.min_le_left _ _)
  have h450 : ⌊((450 : ℕ) : ℚ) * (1/50)⌋ = 9 := by norm_num
  refine ⟨hconst, ?_, hconst 450⟩
  unfold maxAllowedAny
  rw [h450]
  decide

/-- C10: a quote that is empty or whitespace-only makes `verify_citation`
return an unverified result with no method, for every chunk list and chunk
id — neither the exact nor the fuzzy pass is reached. -/
theorem c10_blank_quote_unverified (quote : Str) (chunkId : Nat)
    (chunks : List ChunkRow) (maxFuzzy : Nat) (pct : ℚ)
    (h : ∀ c ∈ quote, isPySpace c) :
    (verifyCitation quote chunkId chunks maxFuzzy pct).verified = false ∧
    (verifyCitation quote chunkId chunks maxFuzzy pct).method = none := by
  unfold verifyCitation
  rw [if_pos (stripList_eq_nil_of_all_space h)]
  exact ⟨rfl, rfl⟩

/-- C10 witness: a whitespace quote against a concrete chunk list. -/
theorem c10_blank_quote_unverified_witness :
    (∀ c ∈ (" \t ".toList : Str), isPySpace c) ∧
    ((verifyCitation " \t ".toList 1
        [⟨1, 1, 1, 0, "the first player wins ties".toList, none, 1, none, none, none, none, none⟩]
        8 (1/50)).verified = false ∧
      (verifyCitation " \t ".toList 1
        [⟨1, 1, 1, 0, "the first player wins ties".toList, none, 1, none, none, none, none, none⟩]
        8 (1/50)).method = none) :=
  ⟨by decide, c10_blank_quote_unverified _ _ _ _ _ (by decide)⟩

/-- C4 counterexample: on a verified, conflict-free context with top score
0.9 and gap 0.1 the function returns `high`, although the claim's `medium`
condition (`verified ∧ s_top ≥ 0.70 ∧ ¬conflict`) holds — so `medium` is
not returned iff that condition holds. -/
theorem c4_medium_iff_counterexample :
    (calculateConfidence ⟨true, 9/10, 1/10, false⟩).1 = "high" ∧
    (calculateConfidence ⟨true, 9/10, 1/10, false⟩).1 ≠ "medium" ∧
    ((true : Bool) = true ∧ (9/10 : ℚ) ≥ 7/10 ∧ ((false : Bool) ≠ true)) := by
  have hhigh : (calculateConfidence ⟨true, 9/10, 1/10, false⟩).1 = "high" := by
    unfold calculateConfidence
    rw [if_pos]
    norm_num
  refine ⟨hhigh, ?_, rfl, by norm_num, by decide⟩
  rw [hhigh]
  decide

/-- C4 (amended): `high` iff the high conditions hold; `medium` iff the
medium conditions hold and the high conditions do not; otherwise `low`, and
the reason is then chosen in the order unverified, conflict, weak match,
ambiguous. -/
theorem c4_confidence_characterization (ctx : ConfidenceCtx) :
    ((calculateConfidence ctx).1 = "high" ↔
      (ctx.verify_ok ∧ ctx.s_top ≥ 85/100 ∧ ctx.s_gap ≥ 8/100 ∧ ¬ctx.conflict)) ∧
    ((calculateConfidence ctx).1 = "medium" ↔
      (¬(ctx.verify_ok ∧ ctx.s_top ≥ 85/100 ∧ ctx.s_gap ≥ 8/100 ∧ ¬ctx.conflict) ∧
        (ctx.verify_ok ∧ ctx.s_top ≥ 7/10 ∧ ¬ctx.conflict))) ∧
    ((calculateConfidence ctx).1 = "low" ↔
      (¬(ctx.verify_ok ∧ ctx.s_top ≥ 85/100 ∧ ctx.s_gap ≥ 8/100 ∧ ¬ctx.conflict) ∧
        ¬(ctx.verify_ok ∧ ctx.s_top ≥ 7/10 ∧ ¬ctx.conflict))) ∧
    ((calculateConfidence ctx).1 = "low" → ¬ctx.verify_ok →
      (calculateConfidence ctx).2 = "Could not verify exact quote") ∧
    ((calculateConfidence ctx).1 = "low" → ctx.verify_ok → ctx.conflict →
      (calculateConfidence ctx).2 = "Multiple sources conflict") ∧
    ((calculateConfidence ctx).1 = "low" → ctx.verify_ok → ¬ctx.conflict →
      ctx.s_top < 7/10 → (calculateConfidence ctx).2 = "Weak semantic match") ∧
    ((calculateConfidence ctx).1 = "low" → ctx.verify_ok → ¬ctx.conflict →
      ¬(ctx.s_top < 7/10) → (calculateConfidence ctx).2 = "Ambiguous ruling") := by
  unfold calculateConfidence getLowReason
  split_ifs with h1 h2 <;> simp_all

/-- C4 witness: the characterization applied to an unverified low-confidence
context. -/
theorem c4_confidence_characterization_witness :
    ((calculateConfidence ⟨false, 1/2, 0, false⟩).1 = "low" ↔
      (¬((false : Bool) = true ∧ (1/2 : ℚ) ≥ 85/100 ∧ (0 : ℚ) ≥ 8/100 ∧ ¬((false : Bool) = true)) ∧
        ¬((false : Bool) = true ∧ (1/2 : ℚ) ≥ 7/10 ∧ ¬((false : Bool) = true)))) :=
  (c4_confidence_characterization ⟨false, 1/2, 0, false⟩).2.2.1

/-- Cast form of the average-characters threshold: for a positive page
count, `avg < 50` iff `totalChars < 50 · pages`. -/
theorem detectNeedsOcr_char_bound (pages : List (Nat × Str)) (n : Nat) :
    (n < 3 → (detectNeedsOcr pages n = true ↔ totalChars pages < 100)) ∧
    (3 ≤ n → (detectNeedsOcr pages n = true ↔ totalChars pages < 50 * n)) := by
  constructor
  · intro h
    simp [detectNeedsOcr, h]
  · intro h
    have hn : ¬ n < 3 := Nat.not_lt.mpr h
    have hpos : 0 < n := lt_of_lt_of_le (by norm_num) h
    simp only [detectNeedsOcr, hn, if_false, hpos, if_pos, decide_eq_true_eq]
    rw [div_lt_iff₀ (by exact_mod_cast hpos)]
    constructor
    · intro hlt
      exact_mod_cast hlt
    · intro hlt
      exact_mod_cast hlt

/-- C9: with the source present, a URL configured, a successful download and
a successful parse (`force = true` so no gate short-circuits), the pipeline
returns `needs_ocr` exactly when `detect_needs_ocr` fires on the extracted
pages, in which case the only state change is setting `needs_ocr = true` and
the new file hash on the source row; and the detector fires iff the average
characters per page is below 50 for documents of at least 3 pages, or the
total characters are below 100 for shorter documents. -/
theorem c9_ocr_gate (o : Oracles) (now : Nat) (db : Db) (sid : Nat)
    (failAt : FailPoint) (src : SourceRow) (url : Str) (bytes : List Nat)
    (rawPages : List Str)
    (h1 : db.sources.find? (fun s => s.id = sid) = some src)
    (h2 : src.source_url = some url)
    (h3 : o.download url = Except.ok bytes)
    (h4 : o.parsePdf bytes = Except.ok rawPages) :
    ((ingestSource o now db sid true failAt).status = IngestStatus.needsOcr ↔
      detectNeedsOcr (extractTextFromPdf rawPages) rawPages.length = true) ∧
    (detectNeedsOcr (extractTextFromPdf rawPages) rawPages.length = true →
      (ingestSource o now db sid true failAt).db =
        updateSources db sid (fun s =>
          { s with needs_ocr := true, file_hash := some (o.hashFn bytes) })) ∧
    (rawPages.length < 3 →
      (detectNeedsOcr (extractTextFromPdf rawPages) rawPages.length = true ↔
        totalChars (extractTextFromPdf rawPages) < 100)) ∧
    (3 ≤ rawPages.length →
      (detectNeedsOcr (extractTextFromPdf rawPages) rawPages.length = true ↔
        totalChars (extractTextFromPdf rawPages) < 50 * rawPages.length)) := by
  refine ⟨?_, ?_, (detectNeedsOcr_char_bound _ _).1, (detectNeedsOcr_char_bound _ _).2⟩
  · unfold ingestSource
    simp only [h1]
    rw [if_neg (by simp)]
    simp only [h2, h3]
    rw [if_neg (by simp)]
    simp only [h4]
    by_cases hdet : detectNeedsOcr (extractTextFromPdf rawPages) rawPages.length = true
    · rw [if_pos hdet]
      simpa using hdet
    · rw [if_neg hdet]
      simp only [hdet, iff_false]
      split_ifs <;> simp
  · intro hdet
    unfold ingestSource
    simp only [h1]
    rw [if_neg (by simp)]
    simp only [h2, h3]
    rw [if_neg (by simp)]
    simp only [h4]
    rw [if_pos hdet]

/-- C9 witness: a three-page scan with 60 total characters (20 per page)
trips the OCR gate. -/
theorem c9_ocr_gate_witness :
    ((ingestSource
        ⟨fun _ => "h".toList, fun _ => Except.ok [0],
          fun _ => Except.ok [(List.replicate 20 'x'), (List.replicate 20 'x'),
            (List.replicate 20 'x')],
          fun _ => none, fun _ => false, fun _ => [], fun _ _ => 0, fun _ _ => (false, 0, [])⟩
        5
        ⟨[⟨1, 1, "rulebook".toList, some "u".toList, none, false, false, none⟩], [], 0⟩
        1 true FailPoint.noFail).status = IngestStatus.needsOcr ↔
      detectNeedsOcr
        (extractTextFromPdf [(List.replicate 20 'x'), (List.replicate 20 'x'),
          (List.replicate 20 'x')]) 3 = true) :=
  (c9_ocr_gate _ 5 _ 1 FailPoint.noFail
    ⟨1, 1, "rulebook".toList, some "u".toList, none, false, false, none⟩
    "u".toList [0] _ (by decide) rfl rfl rfl).1

/-- Chunk rows created by a run of serial inserts starting at id `nid`. -/
def mkRows (nid : Nat) : List NewChunk → List ChunkRow
  | [] => []
  | r :: rs => mkRow nid r :: mkRows (nid + 1) rs

/-- The committed state after `k` successful inserts. -/
def bulkState (db : Db) (rows : List NewChunk) : Db :=
  { db with
    chunks := db.chunks ++ mkRows db.nextChunkId rows
    nextChunkId := db.nextChunkId + rows.length }

/-- Loop characterization of `insertLoop` under failure injection at
absolute index `i + k` (with `i` the starting index). -/
theorem insertLoop_atInsert (rows : List NewChunk) :
    ∀ db i k, k < rows.length →
      insertLoop db rows i (FailPoint.atInsert (i + k)) =
        (bulkState db (rows.take k), false, k) := by
  induction rows with
  | nil => intro db i k h; exact absurd h (by simp)
  | cons r rs ih =>
    intro db i k h
    cases k with
    | zero =>
      rw [insertLoop, if_pos (by simp)]
      simp [bulkState, mkRows]
    | succ k' =>
      rw [insertLoop, if_neg (by simp only [FailPoint.atInsert.injEq]; omega)]
      have h2 : i + (k' + 1) = (i + 1) + k' := by omega
      rw [h2, ih (createChunk db r) (i + 1) k' (by simpa using h)]
      simp [List.take_succ_cons, bulkState, createChunk, mkRows,
        List.append_assoc]
      omega

/-- `insertLoop` with no failure inserts everything. -/
theorem insertLoop_noFail (rows : List NewChunk) :
    ∀ db i, insertLoop db rows i FailPoint.noFail =
      (bulkState db rows, true, rows.length) := by
  induction rows with
  | nil => intro db i; simp [insertLoop, bulkState, mkRows]
  | cons r rs ih =>
    intro db i
    rw [insertLoop, if_neg (by simp)]
    rw [ih (createChunk db r) (i + 1)]
    simp [bulkState, createChunk, mkRows, List.append_assoc]
    omega

/-- C2 counterexample: with one pre-existing chunk of source 1 and two new
chunks, a failure at the second insert leaves a committed state that differs
from the prior state — the old chunk is gone and one new chunk is in — so
the persistence steps are not under a single aborting transaction. -/
theorem c2_not_atomic_counterexample :
    (persistChunks ⟨[], [⟨10, 1, 1, 0, ['a'], none, 1, none, none, none, none, none⟩], 11⟩
        1 [⟨1, 1, 0, ['b'], none, 1, some 35⟩, ⟨1, 1, 1, ['c'], none, 1, some 35⟩]
        (FailPoint.atInsert 1)).2.1 = false ∧
    (persistChunks ⟨[], [⟨10, 1, 1, 0, ['a'], none, 1, none, none, none, none, none⟩], 11⟩
        1 [⟨1, 1, 0, ['b'], none, 1, some 35⟩, ⟨1, 1, 1, ['c'], none, 1, some 35⟩]
        (FailPoint.atInsert 1)).1 ≠
      ⟨[], [⟨10, 1, 1, 0, ['a'], none, 1, none, none, none, none, none⟩], 11⟩ := by
  constructor <;> decide

/-- C2 (amended): the delete and every insert commit individually, so a
failure at insert `i` leaves exactly the old chunks of the source deleted
and the first `i` new chunks committed, with the source rows untouched;
only a completely successful run commits all new chunks. -/
theorem c2_per_statement_commits (db : Db) (sid : Nat) (rows : List NewChunk)
    (i : Nat) (hi : i < rows.length) :
    ((persistChunks db sid rows (FailPoint.atInsert i)).2.1 = false ∧
      (persistChunks db sid rows (FailPoint.atInsert i)).1.sources = db.sources ∧
      (persistChunks db sid rows (FailPoint.atInsert i)).1.chunks =
        db.chunks.filter (fun c => c.source_id ≠ sid) ++ mkRows db.nextChunkId (rows.take i)) ∧
    ((persistChunks db sid rows FailPoint.noFail).2.1 = true ∧
      (persistChunks db sid rows FailPoint.noFail).1.chunks =
        db.chunks.filter (fun c => c.source_id ≠ sid) ++ mkRows db.nextChunkId rows) := by
  constructor
  · unfold persistChunks
    rw [if_neg (by simp)]
    have := insertLoop_atInsert rows (deleteChunksBySource db sid).1 0 i hi
    simp only [Nat.zero_add] at this
    rw [this]
    simp [bulkState, deleteChunksBySource]
  · unfold persistChunks
    rw [if_neg (by simp)]
    rw [insertLoop_noFail rows (deleteChunksBySource db sid).1 0]
    simp [bulkState, deleteChunksBySource]

/-- C2 witness: the amended per-statement-commit characterization applied to
the counterexample state. -/
theorem c2_per_statement_commits_witness :
    (1 : Nat) < 2 ∧
    ((persistChunks ⟨[], [⟨10, 1, 1, 0, ['a'], none, 1, none, none, none, none, none⟩], 11⟩
        1 [⟨1, 1, 0, ['b'], none, 1, some 35⟩, ⟨1, 1, 1, ['c'], none, 1, some 35⟩]
        (FailPoint.atInsert 1)).2.1 = false ∧
      (persistChunks ⟨[], [⟨10, 1, 1, 0, ['a'], none, 1, none, none, none, none, none⟩], 11⟩
        1 [⟨1, 1, 0, ['b'], none, 1, some 35⟩, ⟨1, 1, 1, ['c'], none, 1, some 35⟩]
        (FailPoint.atInsert 1)).1.sources = [] ∧
      (persistChunks ⟨[], [⟨10, 1, 1, 0, ['a'], none, 1, none, none, none, none, none⟩], 11⟩
        1 [⟨1, 1, 0, ['b'], none, 1, some 35⟩, ⟨1, 1, 1, ['c'], none, 1, some 35⟩]
        (FailPoint.atInsert 1)).1.chunks =
        ([⟨10, 1, 1, 0, ['a'], none, 1, none, none, none, none, none⟩] :
            List ChunkRow).filter (fun c => c.source_id ≠ 1) ++
          mkRows 11 ([⟨1, 1, 0, ['b'], none, 1, some 35⟩,
            ⟨1, 1, 1, ['c'], none, 1, some 35⟩].take 1)) :=
  ⟨by decide,
    (c2_per_statement_commits ⟨[], [⟨10, 1, 1, 0, ['a'], none, 1, none, none, none, none, none⟩], 11⟩
      1 [⟨1, 1, 0, ['b'], none, 1, some 35⟩, ⟨1, 1, 1, ['c'], none, 1, some 35⟩]
      1 (by decide)).1⟩

/-! ### Chunker lemmas -/

/-- `stripList` is a right-strip of a left-strip. -/
theorem stripList_eq_rdrop (l : Str) :
    stripList l = List.rdropWhile isPySpace (l.dropWhile isPySpace) := rfl

/-- An element failing the predicate survives a `dropWhile` scan. -/
theorem mem_dropWhile_of_not (p : α → Bool) {l : List α} {c : α}
    (hc : c ∈ l) (hp : ¬ p c) : c ∈ l.dropWhile p := by
  induction l with
  | nil => cases hc
  | cons a as ih =>
    rw [List.dropWhile_cons]
    rcases List.mem_cons.mp hc with rfl | hmem
    · rw [if_neg (by simpa using hp)]
      exact List.mem_cons_self _ _
    · split
      · exact ih hmem
      · exact List.mem_cons_of_mem _ hmem

/-- A string strips to nothing exactly when it is all whitespace. -/
theorem stripList_eq_nil_iff {l : Str} :
    stripList l = [] ↔ ∀ c ∈ l, isPySpace c := by
  rw [stripList_eq_rdrop, List.rdropWhile_eq_nil_iff]
  constructor
  · intro h c hc
    by_cases hsp : isPySpace c
    · exact hsp
    · exact h c (mem_dropWhile_of_not _ hc hsp)
  · intro h c hc
    exact h c (List.dropWhile_sublist _ |>.subset hc)

/-- A non-empty stripped string contains a non-whitespace character. -/
theorem exists_nonspace_of_strip {x : Str} (h : stripList x ≠ []) :
    ∃ c ∈ stripList x, isPySpace c = false := by
  rw [stripList_eq_rdrop] at h ⊢
  refine ⟨(List.rdropWhile isPySpace (x.dropWhile isPySpace)).getLast h,
    List.getLast_mem h, ?_⟩
  simpa using List.rdropWhile_last_not _ _ h

/-- `pySplitAux` with a non-empty current word never returns nothing. -/
theorem pySplitAux_ne_nil_of_cur : ∀ (s cur : Str), cur ≠ [] → pySplitAux cur s ≠ []
  | [], cur, h => by simp [pySplitAux, h]
  | c :: cs, cur, h => by
    by_cases hsp : isPySpace c = true
    · rw [pySplitAux, if_pos hsp, if_neg h]
      simp
    · rw [pySplitAux, if_neg hsp]
      exact pySplitAux_ne_nil_of_cur cs (c :: cur) (by simp)

/-- A string containing a non-whitespace character splits into at least one
word. -/
theorem pySplit_ne_nil {s : Str} (h : ∃ c ∈ s, isPySpace c = false) :
    pySplit s ≠ [] := by
  unfold pySplit
  suffices haux : ∀ (s cur : Str), (∃ c ∈ s, isPySpace c = false) →
      pySplitAux cur s ≠ [] from haux s [] h
  intro s
  induction s with
  | nil => intro cur h; rcases h with ⟨c, hc, _⟩; cases hc
  | cons a as ih =>
    intro cur h
    by_cases hsp : isPySpace a = true
    · rcases h with ⟨c, hc, hcf⟩
      rcases List.mem_cons.mp hc with rfl | hmem
      · rw [hsp] at hcf; cases hcf
      · rw [pySplitAux, if_pos hsp]
        by_cases hcur : cur = []
        · rw [if_pos hcur]
          exact ih _ ⟨c, hmem, hcf⟩
        · rw [if_neg hcur]
          simp
    · rw [pySplitAux, if_neg hsp]
      exact pySplitAux_ne_nil_of_cur as (a :: cur) (by simp)

/-- Every sentence produced by `split_into_sentences` contains a
non-whitespace character. -/
theorem splitIntoSentences_nonblank {t : Str} :
    ∀ s ∈ splitIntoSentences t, ∃ c ∈ s, isPySpace c = false := by
  intro s hs
  unfold splitIntoSentences at hs
  dsimp only at hs
  split at hs
  · cases hs
  · rcases List.mem_filter.mp hs with ⟨hmem, hne⟩
    rcases List.mem_map.mp hmem with ⟨x, _, rfl⟩
    exact exists_nonspace_of_strip (by simpa using hne)

/-- Word-overlap relation between consecutive word chunks: the later chunk
begins with the last `max(1, k // 2)` words of the earlier one. -/
def overlapRel (a b : List Str) : Prop :=
  ∃ t, b = a.drop (a.length - max 1 (a.length / 2)) ++ t

/-- The word loop never ends with an empty word chunk when it starts
non-trivially. -/
theorem wordLoop_final_ne_nil (mt : Nat) :
    ∀ (ws wc : List Str) (wt : Nat), wc ≠ [] ∨ ws ≠ [] →
      (wordLoop mt ws wc wt).2.1 ≠ []
  | [], wc, wt, h => by
    rcases h with h | h
    · simpa [wordLoop] using h
    · cases h rfl
  | w :: ws, wc, wt, _ => by
    rw [wordLoop]
    split
    · exact wordLoop_final_ne_nil mt ws _ _ (Or.inl (by simp))
    · exact wordLoop_final_ne_nil mt ws _ _ (Or.inl (by simp))

/-- Chain invariant of the word loop: every flushed chunk and the final word
chunk overlap consecutively, and the first of them extends the incoming word
chunk. -/
theorem wordLoop_chain (mt : Nat) :
    ∀ (ws wc : List Str) (wt : Nat),
      List.Chain' overlapRel ((wordLoop mt ws wc wt).1 ++ [(wordLoop mt ws wc wt).2.1]) ∧
      ∃ t, ((wordLoop mt ws wc wt).1 ++ [(wordLoop mt ws wc wt).2.1]).head? =
        some (wc ++ t)
  | [], wc, wt => by
    simp [wordLoop]
  | w :: ws, wc, wt => by
    rw [wordLoop]
    split
    · dsimp only
      obtain ⟨hchain, t0, hhead⟩ :=
        wordLoop_chain mt ws (wc.drop (wc.length - max 1 (wc.length / 2)) ++ [w])
          (((wc.drop (wc.length - max 1 (wc.length / 2))).map wordTokenCount).sum +
            wordTokenCount w)
      constructor
      · rw [List.cons_append, List.chain'_cons']
        refine ⟨?_, hchain⟩
        intro b hb
        rw [hhead] at hb
        simp only [Option.mem_def, Option.some.injEq] at hb
        exact ⟨[w] ++ t0, by rw [← hb, List.append_assoc]⟩
      · exact ⟨[], by simp⟩
    · obtain ⟨hchain, t0, hhead⟩ := wordLoop_chain mt ws (wc ++ [w]) (wt + wordTokenCount w)
      exact ⟨hchain, [w] ++ t0, by rw [hhead, List.append_assoc]⟩

/-- Indexing distributes over appending a final word chunk. -/
theorem assignIdx_append_singleton (page : Nat) :
    ∀ (i : Nat) (xs : List (List Str)) (y : List Str),
      assignIdx page i (xs ++ [y]) =
        assignIdx page i xs ++ [mkChunk page (i + xs.length) (joinWords y)]
  | i, [], y => by simp [assignIdx]
  | i, x :: xs, y => by
    simp only [List.cons_append, assignIdx, List.append_eq]
    rw [assignIdx_append_singleton page (i + 1) xs y]
    have h : i + 1 + xs.length = i + (x :: xs).length := by
      simp only [List.length_cons]
      omega
    rw [h]

/-- Characters surviving whitespace collapsing that are not whitespace come
from the original string. -/
theorem collapse_nonspace_mem :
    ∀ (b : Bool) (l : Str) (c : Char), c ∈ collapseWsAux b l → isPySpace c = false → c ∈ l
  | _, [], c, hc, _ => by cases hc
  | b, a :: as, c, hc, hcf => by
    rw [collapseWsAux] at hc
    by_cases hsp : isPySpace a = true
    · rw [if_pos hsp] at hc
      rcases b with _ | _
      · simp only [Bool.false_eq_true, if_false] at hc
        rcases List.mem_cons.mp hc with rfl | hmem
        · exact absurd hcf (by decide)
        · exact List.mem_cons_of_mem _ (collapse_nonspace_mem true as c hmem hcf)
      · simp only [if_true] at hc
        exact List.mem_cons_of_mem _ (collapse_nonspace_mem true as c hc hcf)
    · rw [if_neg hsp] at hc
      rcases List.mem_cons.mp hc with rfl | hmem
      · exact List.mem_cons_self _ _
      · exact List.mem_cons_of_mem _ (collapse_nonspace_mem false as c hmem hcf)

/-- The stripped string is a subset of the original. -/
theorem stripList_subset {l : Str} : stripList l ⊆ l := by
  rw [stripList_eq_rdrop]
  intro c hc
  exact (List.dropWhile_sublist _).subset ((List.rdropWhile_prefix _ _).subset hc)

/-- A text whose sentence splitter produced output has a non-whitespace
character, hence a non-empty strip. -/
theorem stripList_ne_nil_of_sentences {text : Str}
    (h : splitIntoSentences text ≠ []) : stripList text ≠ [] := by
  have hcol : stripList (collapseWs text) ≠ [] := by
    intro hcontra
    apply h
    unfold splitIntoSentences
    rw [if_pos hcontra]
  obtain ⟨c, hc, hcf⟩ := exists_nonspace_of_strip hcol
  intro hcontra
  have hall := stripList_eq_nil_iff.mp hcontra
  exact absurd (hall c (collapse_nonspace_mem false (text) c (stripList_subset hc) hcf))
    (by simp [hcf])

/-- Joining a single word chunk is the identity. -/
theorem joinWords_singleton (x : Str) : joinWords [x] = x := by
  simp [joinWords, List.intercalate]

/-- C7 (amended): a page that is a single sentence with estimated tokens
above `max_tokens` is word-split: the chunks are exactly the word-loop's
flushed word chunks followed by the final word chunk (joined with spaces and
consecutively indexed), at least one chunk is produced, and every pair of
consecutive word chunks overlaps — the later one begins with the last
`max(1, k // 2)` words of the earlier one.  (The original claim's "more than
one chunk" and "every chunk ≤ max_tokens" parts are refuted by
`c7_oversized_single_word_counterexample`.) -/
theorem c7_single_long_sentence_word_split (text s : Str) (page mt : Nat) (ov : ℚ)
    (startIdx : Nat)
    (hs : splitIntoSentences text = [s])
    (hlong : estimateTokens s > mt) :
    chunkText text page mt ov startIdx =
      assignIdx page startIdx
        ((wordLoop mt (pySplit s) [] 0).1 ++ [(wordLoop mt (pySplit s) [] 0).2.1]) ∧
    chunkText text page mt ov startIdx ≠ [] ∧
    List.Chain' overlapRel
      ((wordLoop mt (pySplit s) [] 0).1 ++ [(wordLoop mt (pySplit s) [] 0).2.1]) := by
  have hnb : ∃ c ∈ s, isPySpace c = false :=
    splitIntoSentences_nonblank s (by rw [hs]; exact List.mem_singleton_self s)
  have hws : pySplit s ≠ [] := pySplit_ne_nil hnb
  have hfwc : (wordLoop mt (pySplit s) [] 0).2.1 ≠ [] :=
    wordLoop_final_ne_nil mt (pySplit s) [] 0 (Or.inr hws)
  have hguard : stripList text ≠ [] := stripList_ne_nil_of_sentences (by rw [hs]; simp)
  have heq : chunkText text page mt ov startIdx =
      assignIdx page startIdx
        ((wordLoop mt (pySplit s) [] 0).1 ++ [(wordLoop mt (pySplit s) [] 0).2.1]) := by
    rw [chunkText, if_neg hguard, hs]
    rw [if_neg (by simp)]
    rw [chunkTextLoop]
    dsimp only
    rw [if_pos hlong]
    simp only [ne_eq, not_true_eq_false, if_false, reduceIte, hfwc, not_false_eq_true,
      if_true, List.nil_append, List.length_nil, Nat.add_zero]
    rw [chunkTextLoop]
    rw [if_pos (by simp)]
    rw [assignIdx_append_singleton, joinWords_singleton]
  refine ⟨heq, ?_, (wordLoop_chain mt (pySplit s) [] 0).1⟩
  rw [heq, assignIdx_append_singleton]
  simp

/-- C7 counterexample: a single-sentence page that is one long word
(12 characters, 3 estimated tokens, `max_tokens = 2`) yields exactly one
chunk, and that chunk's estimated tokens exceed `max_tokens` — refuting both
"yields more than one chunk" and "every produced chunk has estimated tokens
at most max_tokens". -/
theorem c7_oversized_single_word_counterexample :
    splitIntoSentences "aaaaaaaaaaaa".toList = ["aaaaaaaaaaaa".toList] ∧
    estimateTokens "aaaaaaaaaaaa".toList > 2 ∧
    chunkText "aaaaaaaaaaaa".toList 1 2 (1/2) 0 =
      [⟨1, 0, "aaaaaaaaaaaa".toList, 12, 3⟩] ∧
    ¬ (3 : Nat) ≤ 2 := by
  refine ⟨by decide, by decide, ?_, by decide⟩
  decide

/-- C7 witness: a four-word sentence of 4 estimated tokens against
`max_tokens = 2` word-splits with overlap. -/
theorem c7_single_long_sentence_word_split_witness :
    splitIntoSentences "aaaa bbbb cccc dddd".toList = ["aaaa bbbb cccc dddd".toList] ∧
    estimateTokens "aaaa bbbb cccc dddd".toList > 2 ∧
    chunkText "aaaa bbbb cccc dddd".toList 1 2 (1/2) 0 ≠ [] :=
  ⟨by decide, by decide,
    (c7_single_long_sentence_word_split "aaaa bbbb cccc dddd".toList
      "aaaa bbbb cccc dddd".toList 1 2 (1/2) 0 (by decide) (by decide)).2.1⟩

/-- The sentence loop yields a chunk whenever the accumulator is non-empty
or every remaining sentence has at least one word. -/
theorem chunkTextLoop_ne_nil (mt ovTok page : Nat) :
    ∀ (sents cur : List Str) (curTok idx : Nat),
      cur ≠ [] ∨ (sents ≠ [] ∧ ∀ s ∈ sents, pySplit s ≠ []) →
      chunkTextLoop mt ovTok page sents cur curTok idx ≠ []
  | [], cur, curTok, idx, h => by
    rcases h with h | ⟨h, _⟩
    · rw [chunkTextLoop, if_pos h]
      simp
    · cases h rfl
  | s :: rest, cur, curTok, idx, h => by
    rw [chunkTextLoop]
    dsimp only
    by_cases hst : estimateTokens s > mt
    · by_cases hcur : cur = []
      · subst hcur
        have hws : pySplit s ≠ [] := by
          rcases h with h | ⟨_, hall⟩
          · exact absurd rfl h
          · exact hall s (List.mem_cons_self _ _)
        have hfwc : (wordLoop mt (pySplit s) [] 0).2.1 ≠ [] :=
          wordLoop_final_ne_nil mt (pySplit s) [] 0 (Or.inr hws)
        rw [if_pos hst]
        simp only [ne_eq, not_true_eq_false, if_false, hfwc, not_false_eq_true, if_true,
          List.nil_append]
        intro hcontra
        exact chunkTextLoop_ne_nil mt ovTok page rest _ _ _ (Or.inl (by simp))
          (List.append_eq_nil.mp hcontra).2
      · rw [if_pos hst]
        simp [hcur]
    · rw [if_neg hst]
      by_cases hflush : curTok + estimateTokens s > mt ∧ cur ≠ []
      · rw [if_pos hflush]
        simp
      · rw [if_neg hflush]
        apply chunkTextLoop_ne_nil
        exact Or.inl (by simp)

/-- A text with a non-whitespace character yields at least one chunk. -/
theorem chunkText_ne_nil (text : Str) (page mt : Nat) (ov : ℚ) (startIdx : Nat)
    (h : ∃ c ∈ text, isPySpace c = false) :
    chunkText text page mt ov startIdx ≠ [] := by
  have hguard : stripList text ≠ [] := by
    intro hcontra
    obtain ⟨c, hc, hcf⟩ := h
    exact absurd (stripList_eq_nil_iff.mp hcontra c hc) (by simp [hcf])
  rw [chunkText, if_neg hguard]
  apply chunkTextLoop_ne_nil
  right
  constructor
  · split <;> simp_all
  · intro s hsmem
    split at hsmem
    · rcases List.mem_singleton.mp hsmem with rfl
      exact pySplit_ne_nil (exists_nonspace_of_strip hguard)
    · exact pySplit_ne_nil (splitIntoSentences_nonblank s hsmem)

/-- Document chunking yields a chunk as soon as one page is non-blank. -/
theorem chunkDocumentGo_ne_nil (mt : Nat) (ov : ℚ) :
    ∀ (idx : Nat) (pages : List (Nat × Str)),
      (∃ p ∈ pages, ∃ c ∈ p.2, isPySpace c = false) →
      chunkDocumentGo mt ov idx pages ≠ []
  | idx, [], h => by rcases h with ⟨p, hp, _⟩; cases hp
  | idx, (pn, txt) :: rest, h => by
    rw [chunkDocumentGo]
    by_cases htxt : ∃ c ∈ txt, isPySpace c = false
    · intro hcontra
      exact chunkText_ne_nil txt pn mt ov idx htxt (List.append_eq_nil.mp hcontra).1
    · have hrest : ∃ p ∈ rest, ∃ c ∈ p.2, isPySpace c = false := by
        rcases h with ⟨p, hp, hc⟩
        rcases List.mem_cons.mp hp with rfl | hmem
        · exact absurd hc htxt
        · exact ⟨p, hmem, hc⟩
      intro hcontra
      exact chunkDocumentGo_ne_nil mt ov _ rest hrest (List.append_eq_nil.mp hcontra).2

/-- C8 (amended): every input text containing a non-whitespace character
yields at least one chunk, and a page list containing such a page makes
`chunk_document` non-empty.  (A non-empty but whitespace-only input yields no
chunks: `c8_whitespace_counterexample`.) -/
theorem c8_nonblank_input_yields_chunk (text : Str) (page mt : Nat) (ov : ℚ)
    (startIdx : Nat) (pages : List (Nat × Str)) :
    ((∃ c ∈ text, isPySpace c = false) → chunkText text page mt ov startIdx ≠ []) ∧
    ((∃ p ∈ pages, ∃ c ∈ p.2, isPySpace c = false) → chunkDocument pages mt ov ≠ []) :=
  ⟨chunkText_ne_nil text page mt ov startIdx,
    chunkDocumentGo_ne_nil mt ov 0 pages⟩

/-- C8 counterexample: a single space is a non-empty input, yet the chunker
returns no chunks. -/
theorem c8_whitespace_counterexample :
    (" ".toList : Str) ≠ [] ∧ chunkText " ".toList 1 400 (1/2) 0 = [] := by
  constructor <;> decide

/-- C8 witness: a one-letter text yields a chunk. -/
theorem c8_nonblank_input_yields_chunk_witness :
    (∃ c ∈ ("a".toList : Str), isPySpace c = false) ∧
    chunkText "a".toList 1 400 (1/2) 0 ≠ [] :=
  ⟨by decide,
    (c8_nonblank_input_yields_chunk "a".toList 1 400 (1/2) 0 []).1 (by decide)⟩

/-! ### Stable-sort lemmas (retrieval ranking and override candidates) -/

/-- Inserting never removes: the old list is a sublist of the insertion. -/
theorem sublist_insertByDesc (key : α → ℚ) (x : α) :
    ∀ l : List α, l.Sublist (insertByDesc key x l)
  | [] => List.nil_sublist _
  | y :: ys => by
    rw [insertByDesc]
    split
    · exact (sublist_insertByDesc key x ys).cons₂ y
    · exact List.sublist_cons_self x (y :: ys)

/-- Decomposition of a stable descending insertion: the new element lands
after exactly the strictly-larger keys. -/
theorem insertByDesc_decomp (key : α → ℚ) (x : α) :
    ∀ l : List α, ∃ l1 l2, l = l1 ++ l2 ∧ insertByDesc key x l = l1 ++ x :: l2 ∧
      ∀ y ∈ l1, key x < key y
  | [] => ⟨[], [], rfl, rfl, by simp⟩
  | y :: ys => by
    rw [insertByDesc]
    split
    · obtain ⟨l1, l2, h1, h2, h3⟩ := insertByDesc_decomp key x ys
      refine ⟨y :: l1, l2, by rw [h1]; rfl, by rw [h2]; rfl, ?_⟩
      intro z hz
      rcases List.mem_cons.mp hz with rfl | hmem
      · assumption
      · exact h3 z hmem
    · exact ⟨[], y :: ys, rfl, rfl, by simp⟩

/-- Membership is preserved by stable insertion. -/
theorem mem_insertByDesc (key : α → ℚ) (x a : α) :
    ∀ l : List α, a ∈ insertByDesc key x l ↔ a = x ∨ a ∈ l
  | [] => by simp [insertByDesc]
  | y :: ys => by
    rw [insertByDesc]
    split
    · rw [List.mem_cons, mem_insertByDesc key x a ys, List.mem_cons]
      tauto
    · simp [List.mem_cons]

/-- Membership is preserved by the stable sort. -/
theorem mem_sortByDesc (key : α → ℚ) (a : α) :
    ∀ l : List α, a ∈ sortByDesc key l ↔ a ∈ l
  | [] => Iff.rfl
  | x :: xs => by
    rw [sortByDesc, mem_insertByDesc, mem_sortByDesc key a xs, List.mem_cons]

/-- Stable insertion preserves descending sortedness. -/
theorem pairwise_insertByDesc (key : α → ℚ) (x : α) :
    ∀ l : List α, l.Pairwise (fun p q => key q ≤ key p) →
      (insertByDesc key x l).Pairwise (fun p q => key q ≤ key p)
  | [], _ => by simp [insertByDesc]
  | y :: ys, h => by
    rw [insertByDesc]
    rcases List.pairwise_cons.mp h with ⟨hy, hys⟩
    split
    · rename_i hlt
      rw [List.pairwise_cons]
      refine ⟨?_, pairwise_insertByDesc key x ys hys⟩
      intro z hz
      rcases (mem_insertByDesc key x z ys).mp hz with rfl | hmem
      · exact le_of_lt hlt
      · exact hy z hmem
    · rename_i hnlt
      rw [List.pairwise_cons]
      refine ⟨?_, h⟩
      intro z hz
      rcases List.mem_cons.mp hz with rfl | hmem
      · exact le_of_not_lt hnlt
      · exact le_trans (hy z hmem) (le_of_not_lt hnlt)

/-- The stable sort is descending in the key. -/
theorem pairwise_sortByDesc (key : α → ℚ) :
    ∀ l : List α, (sortByDesc key l).Pairwise (fun p q => key q ≤ key p)
  | [] => List.Pairwise.nil
  | x :: xs => pairwise_insertByDesc key x _ (pairwise_sortByDesc key xs)

/-- Stability: two entries with equal keys keep their relative order through
the stable descending sort. -/
theorem sortByDesc_stable (key : α → ℚ) (a b : α) (hab : key a = key b) :
    ∀ l : List α, ([a, b] : List α).Sublist l →
      ([a, b] : List α).Sublist (sortByDesc key l)
  | [], h => h
  | x :: xs, h => by
    rw [sortByDesc]
    rcases List.sublist_cons_iff.mp h with hsub | ⟨r, hr, hrsub⟩
    · exact (sortByDesc_stable key a b hab xs hsub).trans (sublist_insertByDesc key x _)
    · have hax : a = x := by injection hr
      have hbr : r = [b] := by injection hr with _ h2; exact h2.symm
      subst hax
      rw [hbr] at hrsub
      have hbmem : b ∈ sortByDesc key xs :=
        (mem_sortByDesc key b xs).mpr (List.singleton_sublist.mp hrsub)
      obtain ⟨l1, l2, hsplit, hins, hbig⟩ := insertByDesc_decomp key a (sortByDesc key xs)
      rw [hins]
      have hbl2 : b ∈ l2 := by
        rw [hsplit] at hbmem
        rcases List.mem_append.mp hbmem with h1 | h2
        · exact absurd (hbig b h1) (by rw [hab]; exact lt_irrefl _)
        · exact h2
      exact ((List.singleton_sublist.mpr hbl2).cons₂ a).trans
        (List.sublist_append_right l1 (a :: l2))

/-- C3 counterexample: two keyword-only chunks with ids 5 and 3 and equal
raw scores tie at final score 1; the ranked output preserves insertion order
`[5, 3]`, not chunk-id ascending order `[3, 5]`. -/
theorem c3_tie_not_id_ascending :
    (hybridRank
        [(⟨5, 1, 1, 0, ['r'], none, 1, none, none, none, none, none⟩, 1),
          (⟨3, 1, 1, 1, ['s'], none, 1, none, none, none, none, none⟩, 1)]
        [] []).map (fun sc => sc.chunk.id) = [5, 3] ∧
    (hybridRank
        [(⟨5, 1, 1, 0, ['r'], none, 1, none, none, none, none, none⟩, 1),
          (⟨3, 1, 1, 1, ['s'], none, 1, none, none, none, none, none⟩, 1)]
        [] []).map (fun sc => sc.final_score) = [1, 1] := by
  norm_num [hybridRank, scoredList, mergeChunks, dictSet, normalizeScores,
    calculatePrecedenceBoost, sortByDesc, insertByDesc, List.zip, List.zipWith,
    List.foldl, List.map, List.replicate]

/-- C3 (amended): the ranked candidate list of `hybrid_search` is sorted by
final score descending, and chunks with equal final score appear in the
same relative order as in the merged candidate map (keyword results first,
then vector-only results) — Python's stable sort applies no chunk-id
tie-break. -/
theorem c3_ties_keep_merge_order (kw vec : List (ChunkRow × ℚ)) (expIds : List Nat)
    (a b : ScoredChunk) (hab : a.final_score = b.final_score)
    (hsub : ([a, b] : List ScoredChunk).Sublist (scoredList kw vec expIds)) :
    ([a, b] : List ScoredChunk).Sublist (hybridRank kw vec expIds) ∧
    (hybridRank kw vec expIds).Pairwise
      (fun p q => q.final_score ≤ p.final_score) := by
  unfold hybridRank
  exact ⟨sortByDesc_stable (fun sc : ScoredChunk => sc.final_score) a b hab _ hsub,
    pairwise_sortByDesc (fun sc : ScoredChunk => sc.final_score) _⟩

/-- C3 witness: the stability theorem applied to the concrete tied pair. -/
theorem c3_ties_keep_merge_order_witness :
    ((1 : ℚ) = 1 ∧
      ([(⟨⟨5, 1, 1, 0, ['r'], none, 1, none, none, none, none, none⟩, 1, 0, 1⟩ : ScoredChunk),
        ⟨⟨3, 1, 1, 1, ['s'], none, 1, none, none, none, none, none⟩, 1, 0, 1⟩] :
          List ScoredChunk).Sublist
        (scoredList
          [(⟨5, 1, 1, 0, ['r'], none, 1, none, none, none, none, none⟩, 1),
            (⟨3, 1, 1, 1, ['s'], none, 1, none, none, none, none, none⟩, 1)] [] [])) ∧
    ([(⟨⟨5, 1, 1, 0, ['r'], none, 1, none, none, none, none, none⟩, 1, 0, 1⟩ : ScoredChunk),
      ⟨⟨3, 1, 1, 1, ['s'], none, 1, none, none, none, none, none⟩, 1, 0, 1⟩] :
        List ScoredChunk).Sublist
      (hybridRank
        [(⟨5, 1, 1, 0, ['r'], none, 1, none, none, none, none, none⟩, 1),
          (⟨3, 1, 1, 1, ['s'], none, 1, none, none, none, none, none⟩, 1)] [] []) := by
  have hsub : ([(⟨⟨5, 1, 1, 0, ['r'], none, 1, none, none, none, none, none⟩, 1, 0, 1⟩ :
        ScoredChunk),
      ⟨⟨3, 1, 1, 1, ['s'], none, 1, none, none, none, none, none⟩, 1, 0, 1⟩] :
        List ScoredChunk).Sublist
      (scoredList
        [(⟨5, 1, 1, 0, ['r'], none, 1, none, none, none, none, none⟩, 1),
          (⟨3, 1, 1, 1, ['s'], none, 1, none, none, none, none, none⟩, 1)] [] []) := by
    have heval : scoredList
        [(⟨5, 1, 1, 0, ['r'], none, 1, none, none, none, none, none⟩, 1),
          (⟨3, 1, 1, 1, ['s'], none, 1, none, none, none, none, none⟩, 1)] [] [] =
        [⟨⟨5, 1, 1, 0, ['r'], none, 1, none, none, none, none, none⟩, 1, 0, 1⟩,
          ⟨⟨3, 1, 1, 1, ['s'], none, 1, none, none, none, none, none⟩, 1, 0, 1⟩] := by
      norm_num [scoredList, mergeChunks, dictSet, normalizeScores,
        calculatePrecedenceBoost, List.zip, List.zipWith, List.foldl, List.map,
        List.replicate]
    rw [heval]
  refine ⟨⟨rfl, hsub⟩, (c3_ties_keep_merge_order _ _ _ _ _ ?_ hsub).1⟩
  rfl

/-! ### Override detector lemmas -/

/-- Every similar-base candidate is drawn from the base chunk list. -/
theorem mem_findSimilarBaseChunks (embFn : Str → List ℚ) (sim : List ℚ → List ℚ → ℚ)
    (exp : ChunkRow) (bases : List ChunkRow) (lim : Nat) (p : ChunkRow × ℚ)
    (hp : p ∈ findSimilarBaseChunks embFn sim exp bases lim) : p.1 ∈ bases := by
  unfold findSimilarBaseChunks at hp
  split at hp
  · cases hp
  · have hsorted := List.mem_of_mem_take hp
    rw [mem_sortByDesc] at hsorted
    rcases List.mem_map.mp hsorted with ⟨b, hb, heq⟩
    have : p.1 = b := by rw [← heq]
    rw [this]
    exact (List.mem_filter.mp hb).1

/-- Every override record pairs an expansion chunk with a base chunk. -/
theorem detectOverrides_mem (kwGate : Str → Bool) (embFn : Str → List ℚ)
    (sim : List ℚ → List ℚ → ℚ) (classify : ChunkRow → ChunkRow → Bool × Int × Str)
    (exps bases : List ChunkRow) (minConf : Nat) (o_ : OverrideRec)
    (ho : o_ ∈ detectOverrides kwGate embFn sim classify exps bases minConf) :
    ∃ c ∈ exps, ∃ d ∈ bases,
      o_.expansion_chunk_id = c.id ∧ o_.overrides_chunk_id = d.id := by
  unfold detectOverrides at ho
  split at ho
  · cases ho
  · rcases List.mem_flatten.mp ho with ⟨inner, hinner, hoin⟩
    rcases List.mem_map.mp hinner with ⟨exp, hexp, rfl⟩
    split at hoin
    · cases hoin
    · dsimp only at hoin
      rcases hcand : (findSimilarBaseChunks embFn sim exp bases 3).filter
          (fun p => decide (p.2 ≥ 82/100)) with _ | ⟨⟨bestc, bests⟩, rest⟩
      · rw [hcand] at hoin
        cases hoin
      · rw [hcand] at hoin
        dsimp only at hoin
        have hbase : bestc ∈ bases := by
          have hmem : (bestc, bests) ∈ (findSimilarBaseChunks embFn sim exp bases 3).filter
              (fun p => decide (p.2 ≥ 82/100)) := by
            rw [hcand]
            exact List.mem_cons_self _ _
          exact mem_findSimilarBaseChunks embFn sim exp bases 3 (bestc, bests)
            (List.mem_filter.mp hmem).1
        by_cases hcls : (classifyClamp (classify exp bestc)).1 = true ∧
            (classifyClamp (classify exp bestc)).2.1 ≥ minConf
        · rw [if_pos hcls] at hoin
          rcases List.mem_singleton.mp hoin with rfl
          exact ⟨exp, hexp, bestc, hbase, rfl, rfl⟩
        · rw [if_neg hcls] at hoin
          cases hoin

/-- C6: every override edge written by the post-ingest trigger for an
expansion source relates an expansion chunk (precedence 2) to a chunk of a
rulebook / reference-card source of the same game (precedence 1) — strictly
lower precedence, same game, different source.  The hypotheses state the
store invariants: the trigger's source record is an expansion-source row of
the store, and every chunk's `precedence_level` agrees with the precedence
map of its source's type. -/
theorem c6_override_edges_precedence (kwGate : Str → Bool) (embFn : Str → List ℚ)
    (sim : List ℚ → List ℚ → ℚ) (classify : ChunkRow → ChunkRow → Bool × Int × Str)
    (db : Db) (src : SourceRow) (sid : Nat)
    (hsrc : src ∈ db.sources) (hsid : src.id = sid)
    (htype : src.source_type = "expansion".toList)
    (hcons : ∀ c ∈ db.chunks, ∀ s2 ∈ db.sources, c.source_id = s2.id →
      c.precedence_level = precedenceOf s2.source_type) :
    ∀ o_ ∈ overrideEdges kwGate embFn sim classify db src sid,
      ∃ c ∈ db.chunks, ∃ d ∈ db.chunks,
        o_.expansion_chunk_id = c.id ∧ o_.overrides_chunk_id = d.id ∧
        c.precedence_level = 2 ∧ d.precedence_level = 1 ∧
        d.precedence_level < c.precedence_level ∧
        c.source_id ≠ d.source_id ∧ c.source_id = src.id ∧
        ∃ sD ∈ db.sources, sD.id = d.source_id ∧ sD.game_id = src.game_id := by
  intro o_ ho
  unfold overrideEdges at ho
  by_cases hg : overrideBaseIds db src sid = [] ∨ expansionChunksOf db sid = [] ∨
      baseChunksOf db (overrideBaseIds db src sid) = []
  · rw [if_pos hg] at ho
    cases ho
  · rw [if_neg hg] at ho
    obtain ⟨c, hc, d, hd, hoc, hod⟩ :=
      detectOverrides_mem kwGate embFn sim classify _ _ 70 o_ ho
    have hc2 := List.mem_filter.mp hc
    have hd2 := List.mem_filter.mp hd
    have hcsid : c.source_id = sid := by
      have := hc2.2
      simp only [decide_eq_true_eq] at this
      exact this.1
    have hdmem : d.source_id ∈ overrideBaseIds db src sid := by
      have := hd2.2
      simp only [decide_eq_true_eq] at this
      exact this.1
    rcases List.mem_map.mp hdmem with ⟨sD, hsDfilter, hsDid⟩
    have hsD2 := List.mem_filter.mp hsDfilter
    have hsDprop := hsD2.2
    simp only [decide_eq_true_eq] at hsDprop
    obtain ⟨hgame, htyp, hne⟩ := hsDprop
    have hcprec : c.precedence_level = 2 := by
      rw [hcons c hc2.1 src hsrc (by rw [hcsid, hsid]), htype]
      decide
    have hdprec : d.precedence_level = 1 := by
      rw [hcons d hd2.1 sD hsD2.1 hsDid.symm]
      rcases htyp with h | h <;> rw [h] <;> decide
    refine ⟨c, hc2.1, d, hd2.1, hoc, hod, hcprec, hdprec, ?_, ?_, ?_, sD, hsD2.1, hsDid, hgame⟩
    · rw [hcprec, hdprec]
      decide
    · rw [hcsid, ← hsDid]
      intro hcontra
      exact hne (by rw [← hcontra])
    · rw [hcsid, hsid]

/-- C6 witness: a concrete store with one expansion source (id 1) and one
rulebook source (id 2) of the same game, where the detector writes the edge
10 → 20. -/
theorem c6_override_edges_precedence_witness :
    ((⟨1, 7, "expansion".toList, none, none, false, false, none⟩ : SourceRow) ∈
      ([⟨1, 7, "expansion".toList, none, none, false, false, none⟩,
        ⟨2, 7, "rulebook".toList, none, none, false, false, none⟩] : List SourceRow)) ∧
    (∀ c ∈ ([⟨10, 1, 1, 0, ['x'], some [1], 2, none, none, none, none, none⟩,
        ⟨20, 2, 1, 0, ['y'], some [1], 1, none, none, none, none, none⟩] : List ChunkRow),
      ∀ s2 ∈ ([⟨1, 7, "expansion".toList, none, none, false, false, none⟩,
        ⟨2, 7, "rulebook".toList, none, none, false, false, none⟩] : List SourceRow),
      c.source_id = s2.id → c.precedence_level = precedenceOf s2.source_type) ∧
    (∃ c ∈ ([⟨10, 1, 1, 0, ['x'], some [1], 2, none, none, none, none, none⟩,
        ⟨20, 2, 1, 0, ['y'], some [1], 1, none, none, none, none, none⟩] : List ChunkRow),
      ∃ d ∈ ([⟨10, 1, 1, 0, ['x'], some [1], 2, none, none, none, none, none⟩,
        ⟨20, 2, 1, 0, ['y'], some [1], 1, none, none, none, none, none⟩] : List ChunkRow),
      (⟨10, 20, 90, ['e'], 1⟩ : OverrideRec).expansion_chunk_id = c.id ∧
      (⟨10, 20, 90, ['e'], 1⟩ : OverrideRec).overrides_chunk_id = d.id ∧
      c.precedence_level = 2 ∧ d.precedence_level = 1 ∧
      d.precedence_level < c.precedence_level ∧
      c.source_id ≠ d.source_id ∧ c.source_id =
        (⟨1, 7, "expansion".toList, none, none, false, false, none⟩ : SourceRow).id ∧
      ∃ sD ∈ ([⟨1, 7, "expansion".toList, none, none, false, false, none⟩,
        ⟨2, 7, "rulebook".toList, none, none, false, false, none⟩] : List SourceRow),
        sD.id = d.source_id ∧ sD.game_id =
          (⟨1, 7, "expansion".toList, none, none, false, false, none⟩ : SourceRow).game_id) := by
  have hmemedge : (⟨10, 20, 90, ['e'], 1⟩ : OverrideRec) ∈
      overrideEdges (fun _ => true) (fun _ => [1]) (fun _ _ => 1) (fun _ _ => (true, 90, ['e']))
        ⟨[⟨1, 7, "expansion".toList, none, none, false, false, none⟩,
          ⟨2, 7, "rulebook".toList, none, none, false, false, none⟩],
         [⟨10, 1, 1, 0, ['x'], some [1], 2, none, none, none, none, none⟩,
          ⟨20, 2, 1, 0, ['y'], some [1], 1, none, none, none, none, none⟩], 21⟩
        ⟨1, 7, "expansion".toList, none, none, false, false, none⟩ 1 := by
    have heval : overrideEdges (fun _ => true) (fun _ => [1]) (fun _ _ => 1)
        (fun _ _ => (true, 90, ['e']))
        ⟨[⟨1, 7, "expansion".toList, none, none, false, false, none⟩,
          ⟨2, 7, "rulebook".toList, none, none, false, false, none⟩],
         [⟨10, 1, 1, 0, ['x'], some [1], 2, none, none, none, none, none⟩,
          ⟨20, 2, 1, 0, ['y'], some [1], 1, none, none, none, none, none⟩], 21⟩
        ⟨1, 7, "expansion".toList, none, none, false, false, none⟩ 1 =
        [⟨10, 20, 90, ['e'], 1⟩] := by
      have hd : decide ((some ([1] : List ℚ)) = none) = false := rfl
      norm_num [overrideEdges, overrideBaseIds, expansionChunksOf, baseChunksOf,
        detectOverrides, findSimilarBaseChunks, hasEmbedding, chunkEmbeddingOrCreate,
        sortByDesc, insertByDesc, classifyClamp, List.filter, hd,
        (by decide : Int.toNat 90 = 90)]
    rw [heval]
    exact List.mem_cons_self _ _
  refine ⟨List.mem_cons_self _ _, by decide, ?_⟩
  exact c6_override_edges_precedence (fun _ => true) (fun _ => [1]) (fun _ _ => 1)
    (fun _ _ => (true, 90, ['e']))
    ⟨[⟨1, 7, "expansion".toList, none, none, false, false, none⟩,
      ⟨2, 7, "rulebook".toList, none, none, false, false, none⟩],
     [⟨10, 1, 1, 0, ['x'], some [1], 2, none, none, none, none, none⟩,
      ⟨20, 2, 1, 0, ['y'], some [1], 1, none, none, none, none, none⟩], 21⟩
    ⟨1, 7, "expansion".toList, none, none, false, false, none⟩ 1
    (List.mem_cons_self _ _) rfl rfl (by decide) _ hmemedge

/-! ### Ingestion idempotence lemmas -/

/-- Chunk inserts never touch the source rows. -/
theorem insertLoop_sources :
    ∀ (rows : List NewChunk) (db : Db) (i : Nat) (fp : FailPoint),
      (insertLoop db rows i fp).1.sources = db.sources
  | [], _, _, _ => rfl
  | r :: rs, db, i, fp => by
    rw [insertLoop]
    split
    · rfl
    · exact insertLoop_sources rs (createChunk db r) (i + 1) fp

/-- Chunk persistence never touches the source rows. -/
theorem persistChunks_sources (db : Db) (sid : Nat) (rows : List NewChunk)
    (fp : FailPoint) : (persistChunks db sid rows fp).1.sources = db.sources := by
  unfold persistChunks
  split
  · rfl
  · exact insertLoop_sources rows _ 0 fp

/-- Saving override edges never touches the source rows. -/
theorem detectAndSaveOverrides_sources (kwGate : Str → Bool) (embFn : Str → List ℚ)
    (sim : List ℚ → List ℚ → ℚ) (classify : ChunkRow → ChunkRow → Bool × Int × Str)
    (db : Db) (sid : Nat) (ids : List Nat) :
    (detectAndSaveOverrides kwGate embFn sim classify db sid ids).sources = db.sources := by
  unfold detectAndSaveOverrides
  dsimp only
  repeat' first | rfl | split

/-- The override trigger never touches the source rows. -/
theorem overrideTrigger_sources (kwGate : Str → Bool) (embFn : Str → List ℚ)
    (sim : List ℚ → List ℚ → ℚ) (classify : ChunkRow → ChunkRow → Bool × Int × Str)
    (db : Db) (src : SourceRow) (sid : Nat) :
    (overrideTrigger kwGate embFn sim classify db src sid).sources = db.sources := by
  unfold overrideTrigger
  dsimp only
  split
  · rfl
  · exact detectAndSaveOverrides_sources kwGate embFn sim classify db sid _

/-- Looking a source up after an id-preserving row update finds the updated
row. -/
theorem find_updateSources (sid : Nat) (g : SourceRow → SourceRow)
    (hg : ∀ s, (g s).id = s.id) :
    ∀ l : List SourceRow,
      List.find? (fun s => s.id = sid) (l.map (fun s => if s.id = sid then g s else s)) =
        (List.find? (fun s => s.id = sid) l).map (fun s => if s.id = sid then g s else s)
  | [] => rfl
  | a :: as => by
    by_cases ha : a.id = sid
    · rw [List.map_cons, if_pos ha, List.find?_cons, List.find?_cons]
      simp [hg a, ha]
    · rw [List.map_cons, if_neg ha, List.find?_cons, List.find?_cons]
      simp only [ha, decide_False, cond_false]
      exact find_updateSources sid g hg as

/-- A successful ingestion run leaves a source row for `sid` with
`last_ingested_at = now` and `needs_reingest = false` committed. -/
theorem ingest_success_row (o : Oracles) (now : Nat) (db : Db) (sid : Nat)
    (force : Bool) (failAt : FailPoint) (out : IngestOutcome)
    (hout : ingestSource o now db sid force failAt = out)
    (hstat : out.status = IngestStatus.success) :
    ∃ src2, out.db.sources.find? (fun s => s.id = sid) = some src2 ∧
      src2.last_ingested_at = some now ∧ src2.needs_reingest = false := by
  unfold ingestSource at hout
  rcases hfind : db.sources.find? (fun s => s.id = sid) with _ | src
  · simp only [hfind] at hout
    subst hout
    simp at hstat
  · simp only [hfind] at hout
    by_cases hg2 : ¬force = true ∧ src.last_ingested_at.isSome = true ∧
        ¬src.needs_reingest = true
    · rw [if_pos hg2] at hout
      subst hout
      simp at hstat
    · rw [if_neg hg2] at hout
      rcases hurl : src.source_url with _ | url
      · simp only [hurl] at hout
        subst hout
        simp at hstat
      · simp only [hurl] at hout
        rcases hdl : o.download url with e | bytes
        · simp only [hdl] at hout
          subst hout
          simp at hstat
        · simp only [hdl] at hout
          by_cases hunch : ¬force = true ∧ src.file_hash = some (o.hashFn bytes)
          · rw [if_pos hunch] at hout
            subst hout
            simp at hstat
          · rw [if_neg hunch] at hout
            rcases hparse : o.parsePdf bytes with e | rawPages
            · simp only [hparse] at hout
              subst hout
              simp at hstat
            · simp only [hparse] at hout
              by_cases hdet : detectNeedsOcr (extractTextFromPdf rawPages)
                  rawPages.length = true
              · rw [if_pos hdet] at hout
                subst hout
                simp at hstat
              · rw [if_neg hdet] at hout
                by_cases hch : chunkDocument (extractTextFromPdf rawPages) 400 (1/2) ≠ []
                · rw [if_pos hch] at hout
                  split at hout
                  · subst hout
                    simp at hstat
                  · split at hout
                    · subst hout
                      simp at hstat
                    · subst hout
                      have hsid : src.id = sid := by
                        simpa using List.find?_some hfind
                      dsimp only
                      have hsrcs : ∀ dbx : Db,
                          ((if precedenceOf src.source_type = 2 then
                              overrideTrigger o.kwGate o.embFn o.sim o.classify dbx src sid
                            else dbx)).sources = dbx.sources := by
                        intro dbx
                        split
                        · exact overrideTrigger_sources _ _ _ _ dbx src sid
                        · rfl
                      rw [hsrcs]
                      unfold updateSources
                      dsimp only
                      rw [congrArg (List.map _) (persistChunks_sources db sid _ failAt)]
                      rw [find_updateSources sid (fun s : SourceRow =>
                          { s with
                            file_hash := some (o.hashFn bytes)
                            needs_ocr := false
                            needs_reingest := false
                            last_ingested_at := some now })
                        (fun s => rfl) db.sources, hfind]
                      rw [Option.map_some', if_pos hsid]
                      exact ⟨_, rfl, rfl, rfl⟩
                · rw [if_neg hch] at hout
                  split at hout
                  · subst hout
                    simp at hstat
                  · subst hout
                    simp at hstat

/-- C5: (a) with `force = false`, a source whose downloaded bytes hash to
the stored `file_hash` is skipped entirely — the committed state is
unchanged, nothing is deleted or created, and the status is
`already_ingested` or `unchanged`; (b) after a successful ingestion, a
second run with `force = false` is a no-op that returns `already_ingested`
and leaves the state (hence chunk texts and chunk count) identical. -/
theorem c5_unchanged_skip_and_second_run (o : Oracles) (now now2 : Nat) (db : Db)
    (sid : Nat) (failAt failAt2 : FailPoint) (src : SourceRow) (url : Str)
    (bytes : List Nat) (force : Bool) :
    ((db.sources.find? (fun s => s.id = sid) = some src →
      src.source_url = some url → o.download url = Except.ok bytes →
      src.file_hash = some (o.hashFn bytes) →
      (ingestSource o now db sid false failAt).db = db ∧
      ((ingestSource o now db sid false failAt).status = IngestStatus.alreadyIngested ∨
        (ingestSource o now db sid false failAt).status = IngestStatus.unchanged) ∧
      (ingestSource o now db sid false failAt).chunksCreated = 0 ∧
      (ingestSource o now db sid false failAt).chunksDeleted = 0) ∧
     ((ingestSource o now db sid force failAt).status = IngestStatus.success →
      ingestSource o now2 (ingestSource o now db sid force failAt).db sid false failAt2 =
        ⟨(ingestSource o now db sid force failAt).db, IngestStatus.alreadyIngested, 0, 0⟩)) := by
  constructor
  · intro h1 h2 h3 h4
    unfold ingestSource
    simp only [h1]
    split
    · exact ⟨rfl, Or.inl rfl, rfl, rfl⟩
    · simp only [h2, h3]
      rw [if_pos (by simp [h4])]
      exact ⟨rfl, Or.inr rfl, rfl, rfl⟩
  · intro hsucc
    obtain ⟨src2, hfind2, hlast, hrein⟩ :=
      ingest_success_row o now db sid force failAt _ rfl hsucc
    generalize hdb2 : (ingestSource o now db sid force failAt).db = db2 at hfind2 ⊢
    unfold ingestSource
    rw [hfind2]
    dsimp only
    rw [if_pos ⟨by simp, by rw [hlast]; rfl, by rw [hrein]; simp⟩]

set_option maxRecDepth 40000 in
/-- C5 witness: (a) a stored hash matching the downloaded bytes with
`force = false` yields `unchanged` on an untouched state; (b) a successful
forced ingestion of a 120-character page followed by an unforced run yields
`already_ingested` on the same state. -/
theorem c5_unchanged_skip_and_second_run_witness :
    ((ingestSource
        ⟨fun _ => ['h'], fun _ => Except.ok [7], fun _ => Except.ok [List.replicate 120 'a'],
          fun _ => none, fun _ => false, fun _ => [], fun _ _ => 0, fun _ _ => (false, 0, [])⟩
        5 ⟨[⟨1, 1, "rulebook".toList, some ['u'], some ['h'], false, false, none⟩], [], 0⟩
        1 false FailPoint.noFail).db =
        ⟨[⟨1, 1, "rulebook".toList, some ['u'], some ['h'], false, false, none⟩], [], 0⟩ ∧
      ((ingestSource
        ⟨fun _ => ['h'], fun _ => Except.ok [7], fun _ => Except.ok [List.replicate 120 'a'],
          fun _ => none, fun _ => false, fun _ => [], fun _ _ => 0, fun _ _ => (false, 0, [])⟩
        5 ⟨[⟨1, 1, "rulebook".toList, some ['u'], some ['h'], false, false, none⟩], [], 0⟩
        1 false FailPoint.noFail).status = IngestStatus.alreadyIngested ∨
       (ingestSource
        ⟨fun _ => ['h'], fun _ => Except.ok [7], fun _ => Except.ok [List.replicate 120 'a'],
          fun _ => none, fun _ => false, fun _ => [], fun _ _ => 0, fun _ _ => (false, 0, [])⟩
        5 ⟨[⟨1, 1, "rulebook".toList, some ['u'], some ['h'], false, false, none⟩], [], 0⟩
        1 false FailPoint.noFail).status = IngestStatus.unchanged)) ∧
    ((ingestSource
        ⟨fun _ => ['h'], fun _ => Except.ok [7], fun _ => Except.ok [List.replicate 120 'a'],
          fun _ => none, fun _ => false, fun _ => [], fun _ _ => 0, fun _ _ => (false, 0, [])⟩
        5 ⟨[⟨2, 1, "rulebook".toList, some ['u'], none, false, false, none⟩], [], 0⟩
        2 true FailPoint.noFail).status = IngestStatus.success ∧
      ingestSource
        ⟨fun _ => ['h'], fun _ => Except.ok [7], fun _ => Except.ok [List.replicate 120 'a'],
          fun _ => none, fun _ => false, fun _ => [], fun _ _ => 0, fun _ _ => (false, 0, [])⟩
        9 (ingestSource
          ⟨fun _ => ['h'], fun _ => Except.ok [7], fun _ => Except.ok [List.replicate 120 'a'],
            fun _ => none, fun _ => false, fun _ => [], fun _ _ => 0, fun _ _ => (false, 0, [])⟩
          5 ⟨[⟨2, 1, "rulebook".toList, some ['u'], none, false, false, none⟩], [], 0⟩
          2 true FailPoint.noFail).db 2 false FailPoint.noFail =
        ⟨(ingestSource
          ⟨fun _ => ['h'], fun _ => Except.ok [7], fun _ => Except.ok [List.replicate 120 'a'],
            fun _ => none, fun _ => false, fun _ => [], fun _ _ => 0, fun _ _ => (false, 0, [])⟩
          5 ⟨[⟨2, 1, "rulebook".toList, some ['u'], none, false, false, none⟩], [], 0⟩
          2 true FailPoint.noFail).db, IngestStatus.alreadyIngested, 0, 0⟩) := by
  have hsucc : (ingestSource
      ⟨fun _ => ['h'], fun _ => Except.ok [7], fun _ => Except.ok [List.replicate 120 'a'],
        fun _ => none, fun _ => false, fun _ => [], fun _ _ => 0, fun _ _ => (false, 0, [])⟩
      5 ⟨[⟨2, 1, "rulebook".toList, some ['u'], none, false, false, none⟩], [], 0⟩
      2 true FailPoint.noFail).status = IngestStatus.success := by decide
  have ha := (c5_unchanged_skip_and_second_run
    ⟨fun _ => ['h'], fun _ => Except.ok [7], fun _ => Except.ok [List.replicate 120 'a'],
      fun _ => none, fun _ => false, fun _ => [], fun _ _ => 0, fun _ _ => (false, 0, [])⟩
    5 9 ⟨[⟨1, 1, "rulebook".toList, some ['u'], some ['h'], false, false, none⟩], [], 0⟩
    1 FailPoint.noFail FailPoint.noFail
    ⟨1, 1, "rulebook".toList, some ['u'], some ['h'], false, false, none⟩
    ['u'] [7] false).1 (by decide) rfl rfl (by decide)
  have hb := (c5_unchanged_skip_and_second_run
    ⟨fun _ => ['h'], fun _ => Except.ok [7], fun _ => Except.ok [List.replicate 120 'a'],
      fun _ => none, fun _ => false, fun _ => [], fun _ _ => 0, fun _ _ => (false, 0, [])⟩
    5 9 ⟨[⟨2, 1, "rulebook".toList, some ['u'], none, false, false, none⟩], [], 0⟩
    2 FailPoint.noFail FailPoint.noFail
    ⟨2, 1, "rulebook".toList, some ['u'], none, false, false, none⟩
    ['u'] [7] true).2 hsucc
  exact ⟨⟨ha.1, ha.2.1⟩, hsucc, hb⟩

end Arbiter
